import Mathlib

/-!
Verification development for the AVB video ring buffer
(src/private/src/avb_video_common/IasAvbVideoRingBufferShm.cpp).

The C++ class IasAvbVideoRingBufferShm is embedded shallowly: the control
block becomes a Lean structure, every member function becomes a pure
function from the pre-state (plus its arguments and, where the source
reads the monotonic clock, an explicit timestamp argument) to the result
code and the post-state.  uint32_t arithmetic that can leave the 32-bit
range is modelled with explicit reduction modulo 2^32; comparisons and
subtractions that the source guards so that they stay in range are
translated directly.

Out-parameters (uint32_t* offset / numBuffers) are modelled as values:
the in-value of *numBuffers is the request argument, and the out-values
of a successful beginAccess are returned as an AccessGrant.  Null-pointer
arguments are not modelled (all modelled calls pass valid pointers);
condition-variable waits are modelled with an explicit oracle listing the
outcome of each timed wait together with the shared values observed at
the wake-up.  Logging (DLT) and condition-variable broadcasts have no
effect on the modelled state and are dropped.
-/

/-- 2^32, the modulus of uint32_t arithmetic. -/
def U32 : Nat := 4294967296

/-- UINT32_MAX, the sentinel used by updateSmallerReaderOffset. -/
def UINT32MAX : Nat := 4294967295

/-- uint32_t subtraction a - b (two's complement wrap), for a < 2^32. -/
def usub (a b : Nat) : Nat := (a + (U32 - b % U32)) % U32

/-- READER_TIMEOUT_NS = 2 * NSEC_PER_SEC from the source. -/
def READER_TIMEOUT_NS : Nat := 2 * 1000000000

/-- cIasVideoRingBufferShmMaxReaders.  Modelled from the spec: the
constant is declared in the header (not under src/); the spec fixes
cMaxReaders = 16. -/
def cIasVideoRingBufferShmMaxReaders : Nat := 16

/-- IasVideoRingBufferResult from the source (error enumeration). -/
inductive IasVideoRingBufferResult where
  | eIasRingBuffOk
  | eIasRingBuffInvalidParam
  | eIasRingBuffNotInitialized
  | eIasRingBuffNotAllowed
  | eIasRingBuffTooManyReaders
  | eIasRingBuffTimeOut
  | eIasRingBuffCondWaitFailed
deriving Repr, DecidableEq

export IasVideoRingBufferResult (eIasRingBuffOk eIasRingBuffInvalidParam
  eIasRingBuffNotInitialized eIasRingBuffNotAllowed eIasRingBuffTooManyReaders
  eIasRingBuffTimeOut eIasRingBuffCondWaitFailed)

/-- IasRingBufferAccess. -/
inductive IasRingBufferAccess where
  | eIasRingBufferAccessUndef
  | eIasRingBufferAccessRead
  | eIasRingBufferAccessWrite
deriving Repr, DecidableEq

/-- IasAvbVideoCondVar::IasResult, abstracted to the three cases the wait
loops distinguish: eIasOk, eIasTimeout, and any other failure. -/
inductive IasCondResult where
  | ok
  | timeout
  | failed
deriving Repr, DecidableEq

/-- One entry of the shared reader table (struct RingBufferReader:
pid, offset, lastAccess, allowedToRead). -/
structure RingBufferReader where
  pid : Int
  offset : Nat
  lastAccess : Nat
  allowedToRead : Nat
deriving Repr, DecidableEq

/-- The zeroed reader slot (the constructor zero-initializes mReaders). -/
def freeSlot : RingBufferReader := ⟨0, 0, 0, 0⟩

/-- The control block of IasAvbVideoRingBufferShm.  mShared, mDataBuf and
the never-used mReadInProgress flag carry no modelled semantics and are
omitted; mutex and condvar objects are external primitives.  The field
initDone models mInitialized (renamed). -/
structure RingBufferShm where
  mBufferSize : Nat
  mNumBuffers : Nat
  mReadOffset : Nat
  mWriteOffset : Nat
  mBufferLevel : Nat
  initDone : Bool
  mWriteInProgress : Bool
  mReadWaitLevel : Nat
  mWriteWaitLevel : Nat
  mAllowedToWrite : Nat
  mWriterLastAccess : Nat
  mReaders : List RingBufferReader
deriving Repr, DecidableEq

/-- The state the constructor produces (all counters zero, table of 16
zeroed slots). -/
def initialState : RingBufferShm :=
  { mBufferSize := 0, mNumBuffers := 0, mReadOffset := 0, mWriteOffset := 0
    mBufferLevel := 0, initDone := false, mWriteInProgress := false
    mReadWaitLevel := 0, mWriteWaitLevel := 0, mAllowedToWrite := 0
    mWriterLastAccess := 0
    mReaders := List.replicate cIasVideoRingBufferShmMaxReaders freeSlot }

/-- findReader.  Modelled from the spec: findReader is declared in the
header (not under src/); per the spec a reader is located by scanning the
table for the entry whose id matches (first match). -/
def findReader (pid : Int) : List RingBufferReader → Option RingBufferReader
  | [] => none
  | r :: rs => if r.pid == pid then some r else findReader pid rs

/-- Apply f to the first table entry whose pid matches (the source
mutates the entry returned by findReader in place). -/
def updateReader (pid : Int) (f : RingBufferReader → RingBufferReader) :
    List RingBufferReader → List RingBufferReader
  | [] => []
  | r :: rs => if r.pid == pid then f r :: rs else r :: updateReader pid f rs

/-- updateReaderAccess: stamp the reader's lastAccess with the monotonic
clock (the clock value is the explicit argument now). -/
def stampReader (pid : Int) (now : Nat) (s : RingBufferShm) : RingBufferShm :=
  { s with mReaders := updateReader pid (fun r => { r with lastAccess := now }) s.mReaders }

/-- init(packetSize, numBuffers, dataBuf, shared); dataBufNull models
nullptr == dataBuf. -/
def init (packetSize numBuffers : Nat) (dataBufNull : Bool) (s : RingBufferShm) :
    IasVideoRingBufferResult × RingBufferShm :=
  if packetSize = 0 ∨ numBuffers = 0 ∨ dataBufNull then
    (eIasRingBuffInvalidParam, s)
  else
    (eIasRingBuffOk,
      { s with mBufferSize := packetSize, mNumBuffers := numBuffers, initDone := true })

/-- calculateReaderBufferLevel.  The else branch computes
mNumBuffers - reader->offset + writeOffset in uint32_t arithmetic. -/
def calculateReaderBufferLevel (s : RingBufferShm) (r : RingBufferReader) : Nat :=
  if r.offset ≤ s.mWriteOffset then s.mWriteOffset - r.offset
  else (usub s.mNumBuffers r.offset + s.mWriteOffset) % U32

/-- updateAvailable(access, pid, *numBuffers); returns (result, *numBuffers). -/
def updateAvailable (access : IasRingBufferAccess) (pid : Int) (s : RingBufferShm) :
    IasVideoRingBufferResult × Nat :=
  match access with
  | .eIasRingBufferAccessUndef => (eIasRingBuffInvalidParam, 0)
  | .eIasRingBufferAccessRead =>
    if s.initDone = false then (eIasRingBuffNotInitialized, 0)
    else
      match findReader pid s.mReaders with
      | none => (eIasRingBuffInvalidParam, 0)
      | some r => (eIasRingBuffOk, calculateReaderBufferLevel s r)
  | .eIasRingBufferAccessWrite =>
    if s.initDone = false then (eIasRingBuffNotInitialized, 0)
    else (eIasRingBuffOk, usub s.mNumBuffers s.mBufferLevel)

/-- The out-values (*offset, *numBuffers) of a successful beginAccess. -/
structure AccessGrant where
  offset : Nat
  count : Nat
deriving Repr, DecidableEq

/-- beginAccess(access, pid, *offset, *numBuffers); req is the in-value of
*numBuffers, now the clock stamp used by updateReaderAccess /
updateWriterAccess.  Additions feeding the physical-end comparisons are
uint32_t and reduced mod 2^32. -/
def beginAccess (access : IasRingBufferAccess) (pid : Int) (req now : Nat)
    (s : RingBufferShm) :
    IasVideoRingBufferResult × RingBufferShm × Option AccessGrant :=
  match access with
  | .eIasRingBufferAccessUndef => (eIasRingBuffInvalidParam, s, none)
  | .eIasRingBufferAccessRead =>
    if s.initDone = false then (eIasRingBuffNotInitialized, s, none)
    else
      match findReader pid s.mReaders with
      | none => (eIasRingBuffInvalidParam, s, none)
      | some r =>
        let bufferLevel := calculateReaderBufferLevel s r
        let off := r.offset
        let n1 := if req > bufferLevel then bufferLevel else req
        let n2 := if (off + n1) % U32 ≥ s.mNumBuffers then usub s.mNumBuffers off else n1
        let rs1 := updateReader pid (fun r0 => { r0 with allowedToRead := n2, lastAccess := now }) s.mReaders
        (eIasRingBuffOk, { s with mReaders := rs1 }, some ⟨off, n2⟩)
  | .eIasRingBufferAccessWrite =>
    if s.initDone = false then (eIasRingBuffNotInitialized, s, none)
    else if s.mWriteInProgress then (eIasRingBuffNotAllowed, s, none)
    else
      let off := s.mWriteOffset
      let bufferLevel := s.mBufferLevel
      let n1 := if req > usub s.mNumBuffers bufferLevel then usub s.mNumBuffers bufferLevel else req
      let n2 := if (s.mWriteOffset + n1) % U32 ≥ s.mNumBuffers then usub s.mNumBuffers s.mWriteOffset else n1
      let n3 := if s.mWriteOffset < s.mReadOffset then s.mReadOffset - s.mWriteOffset - 1 else n2
      let s1 := { s with mWriteInProgress := true, mAllowedToWrite := n3, mWriterLastAccess := now }
      (eIasRingBuffOk, s1, some ⟨off, n3⟩)

/-- The foldl of the scan in updateSmallerReaderOffset (min of live
offsets, starting from UINT32_MAX). -/
def smallerOffsetFold (rs : List RingBufferReader) : Nat :=
  rs.foldl (fun acc r => if r.pid ≠ 0 ∧ r.offset < acc then r.offset else acc) UINT32MAX

/-- updateSmallerReaderOffset: compute the minimum live offset; when it
equals UINT32_MAX return early (no readers); when it equals mNumBuffers
reset every live reader's offset to 0.  Returns (min, new table). -/
def updateSmallerReaderOffset (s : RingBufferShm) : Nat × List RingBufferReader :=
  let m := smallerOffsetFold s.mReaders
  if m = UINT32MAX then (m, s.mReaders)
  else if m = s.mNumBuffers then
    (m, s.mReaders.map (fun r => if r.pid ≠ 0 then { r with offset := 0 } else r))
  else (m, s.mReaders)

/-- aggregateReaderOffset: mBufferLevel -= (smallerOffset - mReadOffset)
(uint32_t), then advance mReadOffset (to 0 at the physical end). -/
def aggregateReaderOffset (s : RingBufferShm) : RingBufferShm :=
  let p := updateSmallerReaderOffset s
  let bL := usub s.mBufferLevel (usub p.1 s.mReadOffset)
  let rO := if p.1 = s.mNumBuffers then 0
            else if p.1 < s.mNumBuffers then p.1
            else s.mReadOffset
  { s with mReaders := p.2, mBufferLevel := bL, mReadOffset := rO }

/-- purgeUnresponsiveReaders: zero every live slot whose lastAccess is in
the past by more than READER_TIMEOUT_NS (now is the clock read). -/
def purgeUnresponsiveReaders (now : Nat) (s : RingBufferShm) : RingBufferShm :=
  { s with mReaders := s.mReaders.map (fun r =>
      if r.pid ≠ 0 ∧ now > r.lastAccess ∧ now - r.lastAccess > READER_TIMEOUT_NS
      then freeSlot else r) }

/-- endAccess(access, pid, offset, numBuffers).  offsetArg is the (cast
to void, hence ignored) offset argument; n the committed count; now the
clock stamp for updateReaderAccess / updateWriterAccess and the purge. -/
def endAccess (access : IasRingBufferAccess) (pid : Int) (offsetArg n now : Nat)
    (s : RingBufferShm) : IasVideoRingBufferResult × RingBufferShm :=
  match access with
  | .eIasRingBufferAccessUndef => (eIasRingBuffInvalidParam, s)
  | .eIasRingBufferAccessRead =>
    match findReader pid s.mReaders with
    | none => (eIasRingBuffInvalidParam, s)
    | some r =>
      if n > r.allowedToRead then (eIasRingBuffInvalidParam, s)
      else
        let rs1 := updateReader pid (fun r0 => { r0 with allowedToRead := 0, offset := (r0.offset + n) % U32 }) s.mReaders
        let s2 := aggregateReaderOffset { s with mReaders := rs1 }
        (eIasRingBuffOk, stampReader pid now s2)
  | .eIasRingBufferAccessWrite =>
    if s.mWriteInProgress then
      if n > s.mAllowedToWrite then (eIasRingBuffInvalidParam, s)
      else
        let w := (s.mWriteOffset + n) % U32
        if w = s.mNumBuffers then
          (eIasRingBuffOk, purgeUnresponsiveReaders now
            { s with mAllowedToWrite := 0, mWriteOffset := 0
                     mBufferLevel := (s.mBufferLevel + n) % U32
                     mWriteInProgress := false, mWriterLastAccess := now })
        else if w > s.mNumBuffers then
          (eIasRingBuffInvalidParam, { s with mAllowedToWrite := 0 })
        else
          (eIasRingBuffOk, purgeUnresponsiveReaders now
            { s with mAllowedToWrite := 0, mWriteOffset := w
                     mBufferLevel := (s.mBufferLevel + n) % U32
                     mWriteInProgress := false, mWriterLastAccess := now })
    else (eIasRingBuffOk, s)

/-- The waitWrite loop: while mBufferLevel > mWriteWaitLevel wait on
condWrite.  The oracle lists, for each timed wait, its outcome and the
value of mBufferLevel observed at the wake-up; none means the loop is
still blocked when the oracle runs out. -/
def waitWriteLoop (wwl : Nat) : Nat → List (IasCondResult × Nat) →
    Option IasVideoRingBufferResult
  | lvl, oracle =>
    if lvl ≤ wwl then some eIasRingBuffOk
    else
      match oracle with
      | [] => none
      | (c, lvl2) :: rest =>
        match c with
        | .timeout => some (if lvl2 > wwl then eIasRingBuffTimeOut else eIasRingBuffOk)
        | .failed => some eIasRingBuffCondWaitFailed
        | .ok => waitWriteLoop wwl lvl2 rest

/-- waitWrite(numBuffers, timeout_ms). -/
def waitWrite (n timeoutMs : Nat) (oracle : List (IasCondResult × Nat))
    (s : RingBufferShm) : Option IasVideoRingBufferResult × RingBufferShm :=
  if n > s.mNumBuffers ∨ n = 0 ∨ timeoutMs = 0 then (some eIasRingBuffInvalidParam, s)
  else
    let s1 := { s with mWriteWaitLevel := s.mNumBuffers - n }
    (waitWriteLoop (s.mNumBuffers - n) s.mBufferLevel oracle, s1)

/-- The waitRead loop: while calculateReaderBufferLevel(reader) < n wait
on condRead, stamping reader->lastAccess after each wake-up.  The oracle
lists each wait's outcome and the clock stamp at the wake-up. -/
def waitReadLoop (pid : Int) (n : Nat) :
    RingBufferShm → List (IasCondResult × Nat) →
    Option IasVideoRingBufferResult × RingBufferShm
  | s, oracle =>
    let lvl := (findReader pid s.mReaders).elim 0 (calculateReaderBufferLevel s)
    if n ≤ lvl then (some eIasRingBuffOk, s)
    else
      match oracle with
      | [] => (none, s)
      | (c, now2) :: rest =>
        let s2 := stampReader pid now2 s
        match c with
        | .timeout =>
          let lvl2 := (findReader pid s2.mReaders).elim 0 (calculateReaderBufferLevel s2)
          (some (if lvl2 < n then eIasRingBuffTimeOut else eIasRingBuffOk), s2)
        | .failed => (some eIasRingBuffCondWaitFailed, s2)
        | .ok => waitReadLoop pid n s2 rest

/-- waitRead(pid, numBuffers, timeout_ms). -/
def waitRead (pid : Int) (n timeoutMs now : Nat) (oracle : List (IasCondResult × Nat))
    (s : RingBufferShm) : Option IasVideoRingBufferResult × RingBufferShm :=
  match findReader pid s.mReaders with
  | none => (some eIasRingBuffInvalidParam, s)
  | some _ =>
    if n > s.mNumBuffers ∨ n = 0 ∨ timeoutMs = 0 then (some eIasRingBuffInvalidParam, s)
    else
      let s1 := if n < s.mReadWaitLevel then { s with mReadWaitLevel := n } else s
      let s2 := stampReader pid now s1
      waitReadLoop pid n s2 oracle

/-- addReader table scan: assign the first free slot (the source writes
pid, offset and lastAccess but leaves the slot's allowedToRead field). -/
def addReaderAux (pid : Int) (off now : Nat) :
    List RingBufferReader → Option (List RingBufferReader)
  | [] => none
  | r :: rs =>
    if r.pid == 0 then
      some ({ pid := pid, offset := off, lastAccess := now, allowedToRead := r.allowedToRead } :: rs)
    else (addReaderAux pid off now rs).map (r :: ·)

/-- addReader(pid). -/
def addReader (pid : Int) (now : Nat) (s : RingBufferShm) :
    IasVideoRingBufferResult × RingBufferShm :=
  if pid ≤ 0 then (eIasRingBuffInvalidParam, s)
  else
    match addReaderAux pid s.mReadOffset now s.mReaders with
    | none => (eIasRingBuffTooManyReaders, s)
    | some rs => (eIasRingBuffOk, { s with mReaders := rs })

/-- removeReader(pid): zero every matching slot; Ok only if one matched. -/
def removeReader (pid : Int) (s : RingBufferShm) :
    IasVideoRingBufferResult × RingBufferShm :=
  if pid ≤ 0 then (eIasRingBuffInvalidParam, s)
  else
    let rs := s.mReaders.map (fun r => if r.pid == pid then freeSlot else r)
    let res := if s.mReaders.any (fun r => r.pid == pid) then eIasRingBuffOk
               else eIasRingBuffInvalidParam
    (res, { s with mReaders := rs })

/-- The fold step of updateSmallerReaderOffset. -/
def minStep (acc : Nat) (r : RingBufferReader) : Nat :=
  if r.pid ≠ 0 ∧ r.offset < acc then r.offset else acc

def StateInv (s : RingBufferShm) : Prop :=
  s.initDone = true ∧
  0 < s.mNumBuffers ∧
  2 * s.mNumBuffers ≤ U32 ∧
  s.mWriteOffset < s.mNumBuffers ∧
  s.mReadOffset < s.mNumBuffers ∧
  s.mBufferLevel ≤ s.mNumBuffers ∧
  s.mBufferLevel % s.mNumBuffers
    = (s.mWriteOffset + s.mNumBuffers - s.mReadOffset) % s.mNumBuffers ∧
  s.mAllowedToWrite + s.mWriteOffset ≤ s.mNumBuffers ∧
  (s.mWriteInProgress = true → s.mAllowedToWrite + s.mBufferLevel ≤ s.mNumBuffers) ∧
  (∀ r ∈ s.mReaders, r.pid ≠ 0 → s.mReadOffset ≤ r.offset) ∧
  (∀ r ∈ s.mReaders, r.pid ≠ 0 → r.offset + r.allowedToRead ≤ s.mNumBuffers) ∧
  (∀ r ∈ s.mReaders, r.pid ≠ 0 →
    r.offset + r.allowedToRead ≤ s.mWriteOffset ∨
    s.mReadOffset + s.mBufferLevel = s.mWriteOffset + s.mNumBuffers) ∧
  (∀ r ∈ s.mReaders, r.pid = 0 → r = freeSlot)

instance decStateInv (s : RingBufferShm) : Decidable (StateInv s) := by
  unfold StateInv
  infer_instance

inductive Event where
  | evAddReader (pid : Int) (now : Nat)
  | evRemoveReader (pid : Int)
  | evUpdateAvailable (access : IasRingBufferAccess) (pid : Int)
  | evBeginAccess (access : IasRingBufferAccess) (pid : Int) (req now : Nat)
  | evEndAccess (access : IasRingBufferAccess) (pid : Int) (off n now : Nat)
  | evWaitRead (pid : Int) (n t now : Nat) (oracle : List (IasCondResult × Nat))
  | evWaitWrite (n t : Nat) (oracle : List (IasCondResult × Nat))
deriving Repr, DecidableEq

/-- The state transition of one public operation. -/
def step (s : RingBufferShm) : Event → RingBufferShm
  | .evAddReader pid now => (addReader pid now s).2
  | .evRemoveReader pid => (removeReader pid s).2
  | .evUpdateAvailable _ _ => s
  | .evBeginAccess access pid req now => (beginAccess access pid req now s).2.1
  | .evEndAccess access pid off n now => (endAccess access pid off n now s).2
  | .evWaitRead pid n t now oracle => (waitRead pid n t now oracle s).2
  | .evWaitWrite n t oracle => (waitWrite n t oracle s).2

/-- Run a sequence of operations. -/
def runEvents (s : RingBufferShm) : List Event → RingBufferShm
  | [] => s
  | e :: es => runEvents (step s e) es

/-- Caller-side legality: ids passed for reader-identified operations are
positive process ids. -/
def legalEvent : Event → Bool
  | .evAddReader pid _ => decide (0 < pid)
  | .evRemoveReader pid => decide (0 < pid)
  | .evUpdateAvailable _ pid => decide (0 < pid)
  | .evBeginAccess _ pid _ _ => decide (0 < pid)
  | .evEndAccess _ pid _ _ _ => decide (0 < pid)
  | .evWaitRead pid _ _ _ _ => decide (0 < pid)
  | .evWaitWrite _ _ _ => true

/-- The legal trace refuting the literal equality of C1: a writer fills
all four slots of an empty ring (paired begin/end, no borrow left in
flight).  The resulting state has bufferLevel = 4 = numBuffers while
writeOffset = readOffset = 0. -/
def c1CounterTrace : List Event :=
  [Event.evBeginAccess .eIasRingBufferAccessWrite 1 4 0,
   Event.evEndAccess .eIasRingBufferAccessWrite 1 0 4 0]

/-- A small legal trace used as a witness instance (one reader
registered, writer produces two slots). -/
def c1WitnessTrace : List Event :=
  [Event.evAddReader 7 0,
   Event.evBeginAccess .eIasRingBufferAccessWrite 1 2 0,
   Event.evEndAccess .eIasRingBufferAccessWrite 1 0 2 0]

/-- The clamp chain of beginAccess (write side), as a function of state
and request: clamp to free space, clamp to the physical end, then the
readOffset - writeOffset - 1 rule. -/
def writeGrantCount (s : RingBufferShm) (req : Nat) : Nat :=
  let n1 := if req > usub s.mNumBuffers s.mBufferLevel then usub s.mNumBuffers s.mBufferLevel else req
  let n2 := if (s.mWriteOffset + n1) % U32 ≥ s.mNumBuffers then usub s.mNumBuffers s.mWriteOffset else n1
  if s.mWriteOffset < s.mReadOffset then s.mReadOffset - s.mWriteOffset - 1 else n2

/-- The clamp chain of beginAccess (read side) for a located reader. -/
def readGrantCount (s : RingBufferShm) (r : RingBufferReader) (req : Nat) : Nat :=
  let bufferLevel := calculateReaderBufferLevel s r
  let n1 := if req > bufferLevel then bufferLevel else req
  if (r.offset + n1) % U32 ≥ s.mNumBuffers then usub s.mNumBuffers r.offset else n1

/-- Legal trace reaching writeOffset = 0 < readOffset = 3, bufferLevel =
1 on a 4-slot ring: write 3, drain 3, write 1 (wrapping the writer). -/
def c2Trace : List Event :=
  [Event.evAddReader 100 0,
   Event.evBeginAccess .eIasRingBufferAccessWrite 1 3 0,
   Event.evEndAccess .eIasRingBufferAccessWrite 1 0 3 0,
   Event.evBeginAccess .eIasRingBufferAccessRead 100 3 0,
   Event.evEndAccess .eIasRingBufferAccessRead 100 0 3 0,
   Event.evBeginAccess .eIasRingBufferAccessWrite 1 1 0,
   Event.evEndAccess .eIasRingBufferAccessWrite 1 0 1 0]

/-- A control block with a corrupted allowedToWrite so that a commit of
n = 2 slots trips the writeOffset + n > numBuffers geometry check (such
a state is not reachable by the begin/end protocol itself, whose grants
keep writeOffset + allowedToWrite ≤ numBuffers). -/
def c3State : RingBufferShm :=
  { initialState with mNumBuffers := 4, initDone := true, mWriteInProgress := true, mWriteOffset := 3, mAllowedToWrite := 2 }

/-- State used to instantiate the read-grant claim: init(1, 4) plus one
registered reader (id 100, offset 0). -/
def c5State : RingBufferShm := (addReader 100 0 (init 1 4 false initialState).2).2

/-- State used to instantiate the purge claim: init(1, 4) plus one
registered reader (id 9) whose lastAccess stamp is 0. -/
def c6State : RingBufferShm := (addReader 9 0 (init 1 4 false initialState).2).2

/-- Trace producing two live table entries with the same id 5 (addReader
does not check for duplicates). -/
def c8DupTrace : List Event := [Event.evAddReader 5 1, Event.evAddReader 5 2]

/-! ### Arithmetic helpers -/

theorem usub_eq_sub {a b : Nat} (hba : b ≤ a) (ha : a < U32) : usub a b = a - b := by
  have hb : b < U32 := lt_of_le_of_lt hba ha
  simp only [usub, U32] at hb ha ⊢
  omega

theorem mod_bounded_cases {N a b : Nat} (hN : 0 < N) (ha : a ≤ N) (hb : b < N)
    (h : a % N = b % N) : a = b ∨ (a = N ∧ b = 0) := by
  rcases Nat.lt_or_ge a N with hlt | hge
  · left
    rwa [Nat.mod_eq_of_lt hlt, Nat.mod_eq_of_lt hb] at h
  · have haN : a = N := le_antisymm ha hge
    subst haN
    rw [Nat.mod_self, Nat.mod_eq_of_lt hb] at h
    exact Or.inr ⟨rfl, h.symm⟩

/-! ### findReader / updateReader helpers -/

theorem findReader_mem {pid : Int} {l : List RingBufferReader} {r : RingBufferReader}
    (h : findReader pid l = some r) : r ∈ l := by
  induction l with
  | nil => simp [findReader] at h
  | cons a as ih =>
    simp only [findReader] at h
    by_cases hA : a.pid = pid
    · simp [hA] at h
      simp [← h]
    · simp [hA] at h
      exact List.mem_cons_of_mem a (ih h)

theorem findReader_pid {pid : Int} {l : List RingBufferReader} {r : RingBufferReader}
    (h : findReader pid l = some r) : r.pid = pid := by
  induction l with
  | nil => simp [findReader] at h
  | cons a as ih =>
    simp only [findReader] at h
    by_cases hA : a.pid = pid
    · simp [hA] at h
      rw [← h]
      exact hA
    · simp [hA] at h
      exact ih h

theorem updateReader_forall {P : RingBufferReader → Prop} {pid : Int}
    {f : RingBufferReader → RingBufferReader} {l : List RingBufferReader}
    (hl : ∀ r ∈ l, P r)
    (hf : ∀ r, findReader pid l = some r → P (f r)) :
    ∀ r2 ∈ updateReader pid f l, P r2 := by
  induction l with
  | nil => intro r2 h2; simp [updateReader] at h2
  | cons a as ih =>
    intro r2 h2
    by_cases hA : a.pid = pid
    · simp only [updateReader, hA] at h2
      simp at h2
      rcases h2 with h2 | h2
      · subst h2
        exact hf a (by simp [findReader, hA])
      · exact hl r2 (List.mem_cons_of_mem a h2)
    · simp only [updateReader] at h2
      rw [if_neg (by simpa using hA)] at h2
      rcases List.mem_cons.mp h2 with h2 | h2
      · exact hl r2 (h2 ▸ List.mem_cons_self a as)
      · refine ih (fun r hr => hl r (List.mem_cons_of_mem a hr)) ?_ r2 h2
        intro r hr
        exact hf r (by simpa [findReader, hA] using hr)

theorem findReader_updateReader {pid : Int} {f : RingBufferReader → RingBufferReader}
    (hf : ∀ r, (f r).pid = r.pid) (l : List RingBufferReader) :
    findReader pid (updateReader pid f l) = (findReader pid l).map f := by
  induction l with
  | nil => simp [findReader, updateReader]
  | cons a as ih =>
    by_cases hA : a.pid = pid
    · simp [findReader, updateReader, hA, hf a]
    · simp [findReader, updateReader, hA, ih]

theorem updateReader_length {pid : Int} {f : RingBufferReader → RingBufferReader}
    (l : List RingBufferReader) : (updateReader pid f l).length = l.length := by
  induction l with
  | nil => rfl
  | cons a as ih =>
    by_cases hA : a.pid = pid <;> simp [updateReader, hA, ih]

/-! ### smallerOffsetFold helpers -/

theorem smallerOffsetFold_eq (rs : List RingBufferReader) :
    smallerOffsetFold rs = rs.foldl minStep UINT32MAX := rfl

theorem foldl_minStep_le_acc (l : List RingBufferReader) (a : Nat) :
    l.foldl minStep a ≤ a := by
  induction l generalizing a with
  | nil => simp
  | cons r rs ih =>
    calc (r :: rs).foldl minStep a = rs.foldl minStep (minStep a r) := rfl
    _ ≤ minStep a r := ih _
    _ ≤ a := by unfold minStep; split <;> omega

theorem foldl_minStep_le_mem {l : List RingBufferReader} {r : RingBufferReader}
    (hr : r ∈ l) (hlive : r.pid ≠ 0) (a : Nat) : l.foldl minStep a ≤ r.offset := by
  induction l generalizing a with
  | nil => simp at hr
  | cons x xs ih =>
    rcases List.mem_cons.mp hr with h | h
    · subst h
      calc (r :: xs).foldl minStep a = xs.foldl minStep (minStep a r) := rfl
      _ ≤ minStep a r := foldl_minStep_le_acc _ _
      _ ≤ r.offset := by
        unfold minStep
        by_cases hx : r.offset < a
        · rw [if_pos ⟨hlive, hx⟩]
        · rw [if_neg (by tauto)]
          omega
    · exact ih h _

theorem foldl_minStep_cases (l : List RingBufferReader) (a : Nat) :
    l.foldl minStep a = a ∨ ∃ r ∈ l, r.pid ≠ 0 ∧ l.foldl minStep a = r.offset := by
  induction l generalizing a with
  | nil => exact Or.inl rfl
  | cons x xs ih =>
    have hstep : (x :: xs).foldl minStep a = xs.foldl minStep (minStep a x) := rfl
    by_cases hc : x.pid ≠ 0 ∧ x.offset < a
    · have hmin : minStep a x = x.offset := by unfold minStep; rw [if_pos hc]
      rcases ih (minStep a x) with h | ⟨r, hr, hlive, heq⟩
      · exact Or.inr ⟨x, List.mem_cons_self x xs, hc.1, by rw [hstep, h, hmin]⟩
      · exact Or.inr ⟨r, List.mem_cons_of_mem x hr, hlive, by rw [hstep, heq]⟩
    · have hmin : minStep a x = a := by unfold minStep; rw [if_neg hc]
      rcases ih (minStep a x) with h | ⟨r, hr, hlive, heq⟩
      · exact Or.inl (by rw [hstep, h, hmin])
      · exact Or.inr ⟨r, List.mem_cons_of_mem x hr, hlive, by rw [hstep, heq]⟩

/-!
### The inductive state invariant

StateInv collects the facts that hold in every state reachable by legal
operations after a successful init with numBuffers at most 2^31 (the
bound keeps all uint32_t clamp arithmetic of the source below 2^32).
-/

/-- The two shapes the fill level can take: behind-or-equal writer with
level = writeOffset - readOffset (or exactly full), or reader offset
ahead of a wrapped writer with level = writeOffset + N - readOffset. -/
theorem bufferLevel_cases {s : RingBufferShm} (h : StateInv s) :
    (s.mReadOffset ≤ s.mWriteOffset ∧
      (s.mBufferLevel = s.mWriteOffset - s.mReadOffset ∨
        (s.mBufferLevel = s.mNumBuffers ∧ s.mWriteOffset = s.mReadOffset))) ∨
    (s.mWriteOffset < s.mReadOffset ∧
      s.mBufferLevel = s.mWriteOffset + s.mNumBuffers - s.mReadOffset) := by
  obtain ⟨-, hN, -, hwo, hro, hbl, hcong, -⟩ := h
  rcases le_or_lt s.mReadOffset s.mWriteOffset with hle | hlt
  · left
    refine ⟨hle, ?_⟩
    have hx : s.mWriteOffset + s.mNumBuffers - s.mReadOffset
        = (s.mWriteOffset - s.mReadOffset) + s.mNumBuffers := by omega
    rw [hx, Nat.add_mod_right] at hcong
    have := mod_bounded_cases hN hbl (by omega : s.mWriteOffset - s.mReadOffset < s.mNumBuffers) hcong
    omega
  · right
    refine ⟨hlt, ?_⟩
    have := mod_bounded_cases hN hbl
      (by omega : s.mWriteOffset + s.mNumBuffers - s.mReadOffset < s.mNumBuffers) hcong
    omega

/-- When the writer is physically behind a reader (wrapped), the level is
exactly writeOffset + N - readOffset; restated as the equation used by
the clamp-3 analysis. -/
theorem level_of_wrapped {s : RingBufferShm} (h : StateInv s)
    (hlt : s.mWriteOffset < s.mReadOffset) :
    s.mReadOffset + s.mBufferLevel = s.mWriteOffset + s.mNumBuffers := by
  rcases bufferLevel_cases h with ⟨hle, -⟩ | ⟨-, heq⟩
  · omega
  · obtain ⟨-, -, -, -, hro, -⟩ := h
    omega

/-! ### Invariant preservation: reader-table operations -/

theorem inv_stampReader {s : RingBufferShm} {pid : Int} (now : Nat)
    (hpid : pid ≠ 0) (h : StateInv s) : StateInv (stampReader pid now s) := by
  obtain ⟨h1, h2, h3, h4, h5, h6, h7, h8, h9, h10, h11, h12, h13⟩ := h
  refine ⟨h1, h2, h3, h4, h5, h6, h7, h8, h9, ?_, ?_, ?_, ?_⟩
  · exact updateReader_forall h10 (fun r hr => h10 r (findReader_mem hr))
  · exact updateReader_forall h11 (fun r hr => h11 r (findReader_mem hr))
  · exact updateReader_forall h12 (fun r hr => h12 r (findReader_mem hr))
  · refine updateReader_forall h13 (fun r hr => ?_)
    intro hz
    exact absurd (findReader_pid hr ▸ hz) hpid

/-- Table maps that either zero a slot or keep it preserve every clause
guarded by liveness. -/
theorem zeroOrKeep_forall {P : RingBufferReader → Prop} {l : List RingBufferReader}
    {g : RingBufferReader → RingBufferReader}
    (hg : ∀ r, g r = freeSlot ∨ g r = r)
    (hP : ∀ r ∈ l, r.pid ≠ 0 → P r) :
    ∀ r2 ∈ l.map g, r2.pid ≠ 0 → P r2 := by
  intro r2 hr2 hlive
  obtain ⟨r, hr, rfl⟩ := List.mem_map.mp hr2
  rcases hg r with hgr | hgr
  · rw [hgr] at hlive
    exact absurd rfl hlive
  · rw [hgr] at hlive ⊢
    exact hP r hr hlive

/-- Table maps that either zero a slot or keep it preserve the
free-slots-are-zero clause. -/
theorem zeroOrKeep_free {l : List RingBufferReader}
    {g : RingBufferReader → RingBufferReader}
    (hg : ∀ r, g r = freeSlot ∨ g r = r)
    (hP : ∀ r ∈ l, r.pid = 0 → r = freeSlot) :
    ∀ r2 ∈ l.map g, r2.pid = 0 → r2 = freeSlot := by
  intro r2 hr2 hz
  obtain ⟨r, hr, rfl⟩ := List.mem_map.mp hr2
  rcases hg r with hgr | hgr
  · exact hgr
  · rw [hgr] at hz ⊢
    exact hP r hr hz

theorem inv_purge {s : RingBufferShm} (now : Nat) (h : StateInv s) :
    StateInv (purgeUnresponsiveReaders now s) := by
  obtain ⟨h1, h2, h3, h4, h5, h6, h7, h8, h9, h10, h11, h12, h13⟩ := h
  have hg : ∀ r : RingBufferReader,
      (if r.pid ≠ 0 ∧ now > r.lastAccess ∧ now - r.lastAccess > READER_TIMEOUT_NS
        then freeSlot else r) = freeSlot ∨
      (if r.pid ≠ 0 ∧ now > r.lastAccess ∧ now - r.lastAccess > READER_TIMEOUT_NS
        then freeSlot else r) = r := by
    intro r
    by_cases hc : r.pid ≠ 0 ∧ now > r.lastAccess ∧ now - r.lastAccess > READER_TIMEOUT_NS
    · exact Or.inl (if_pos hc)
    · exact Or.inr (if_neg hc)
  exact ⟨h1, h2, h3, h4, h5, h6, h7, h8, h9,
    zeroOrKeep_forall hg h10, zeroOrKeep_forall hg h11, zeroOrKeep_forall hg h12,
    zeroOrKeep_free hg h13⟩

theorem inv_removeReader {s : RingBufferShm} (pid : Int) (h : StateInv s) :
    StateInv (removeReader pid s).2 := by
  unfold removeReader
  by_cases hle : pid ≤ 0
  · rw [if_pos hle]
    exact h
  · rw [if_neg hle]
    obtain ⟨h1, h2, h3, h4, h5, h6, h7, h8, h9, h10, h11, h12, h13⟩ := h
    have hg : ∀ r : RingBufferReader,
        (if r.pid == pid then freeSlot else r) = freeSlot ∨
        (if r.pid == pid then freeSlot else r) = r := by
      intro r
      by_cases hc : r.pid = pid
      · exact Or.inl (if_pos (by simpa using hc))
      · exact Or.inr (if_neg (by simpa using hc))
    exact ⟨h1, h2, h3, h4, h5, h6, h7, h8, h9,
      zeroOrKeep_forall hg h10, zeroOrKeep_forall hg h11, zeroOrKeep_forall hg h12,
      zeroOrKeep_free hg h13⟩

theorem addReaderAux_forall {P : RingBufferReader → Prop} {pid : Int} {off now : Nat}
    {l l2 : List RingBufferReader}
    (haux : addReaderAux pid off now l = some l2)
    (hl : ∀ r ∈ l, P r)
    (hnew : ∀ r ∈ l, r.pid = 0 →
      P { pid := pid, offset := off, lastAccess := now, allowedToRead := r.allowedToRead }) :
    ∀ r2 ∈ l2, P r2 := by
  induction l generalizing l2 with
  | nil => simp [addReaderAux] at haux
  | cons a as ih =>
    simp only [addReaderAux] at haux
    by_cases hz : a.pid = 0
    · rw [if_pos (by simpa using hz)] at haux
      obtain rfl := Option.some.inj haux
      intro r2 hr2
      rcases List.mem_cons.mp hr2 with h | h
      · subst h
        exact hnew a (List.mem_cons_self a as) hz
      · exact hl r2 (List.mem_cons_of_mem a h)
    · rw [if_neg (by simpa using hz)] at haux
      cases haux2 : addReaderAux pid off now as with
      | none => rw [haux2] at haux; simp at haux
      | some rs2 =>
        rw [haux2] at haux
        have haux3 : some (a :: rs2) = some l2 := by simpa using haux
        obtain rfl := Option.some.inj haux3
        intro r2 hr2
        rcases List.mem_cons.mp hr2 with h | h
        · rw [h]
          exact hl a (List.mem_cons_self a as)
        · exact ih haux2 (fun r hr => hl r (List.mem_cons_of_mem a hr))
            (fun r hr hz2 => hnew r (List.mem_cons_of_mem a hr) hz2) r2 h

theorem inv_addReader {s : RingBufferShm} (pid : Int) (now : Nat) (h : StateInv s) :
    StateInv (addReader pid now s).2 := by
  have hInv := h
  unfold addReader
  by_cases hle : pid ≤ 0
  · rw [if_pos hle]
    exact h
  · rw [if_neg hle]
    cases haux : addReaderAux pid s.mReadOffset now s.mReaders with
    | none => exact h
    | some rs =>
      show StateInv { s with mReaders := rs }
      obtain ⟨h1, h2, h3, h4, h5, h6, h7, h8, h9, h10, h11, h12, h13⟩ := h
      refine ⟨h1, h2, h3, h4, h5, h6, h7, h8, h9, ?_, ?_, ?_, ?_⟩
      · refine addReaderAux_forall haux h10 ?_
        intro r hr hz _
        exact Nat.le_refl _
      · refine addReaderAux_forall haux h11 ?_
        intro r hr hz _
        have ha0 : r.allowedToRead = 0 := by rw [h13 r hr hz]; rfl
        show s.mReadOffset + r.allowedToRead ≤ s.mNumBuffers
        omega
      · refine addReaderAux_forall haux h12 ?_
        intro r hr hz _
        have ha0 : r.allowedToRead = 0 := by rw [h13 r hr hz]; rfl
        rcases le_or_lt s.mReadOffset s.mWriteOffset with hro | hro
        · left
          show s.mReadOffset + r.allowedToRead ≤ s.mWriteOffset
          omega
        · have hw := level_of_wrapped hInv hro
          exact Or.inr hw
      · refine addReaderAux_forall haux h13 ?_
        intro r hr hz habs
        have : pid = 0 := habs
        omega

/-! ### Invariant preservation: beginAccess -/

/-- Under the invariant bounds, calculateReaderBufferLevel computes the
per-reader backlog with no uint32 wrap. -/
theorem calcLevel_spec {s : RingBufferShm} {r : RingBufferReader}
    (ho : r.offset ≤ s.mNumBuffers) (hwo : s.mWriteOffset < s.mNumBuffers)
    (hU : 2 * s.mNumBuffers ≤ U32) :
    (r.offset ≤ s.mWriteOffset ∧
      calculateReaderBufferLevel s r = s.mWriteOffset - r.offset) ∨
    (s.mWriteOffset < r.offset ∧
      calculateReaderBufferLevel s r = s.mNumBuffers - r.offset + s.mWriteOffset) := by
  unfold calculateReaderBufferLevel
  by_cases hc : r.offset ≤ s.mWriteOffset
  · exact Or.inl ⟨hc, if_pos hc⟩
  · right
    refine ⟨by omega, ?_⟩
    rw [if_neg hc]
    have hU32 : (0 : Nat) < U32 := by simp [U32]
    rw [usub_eq_sub ho (by omega)]
    exact Nat.mod_eq_of_lt (by omega)

theorem inv_beginAccess {s : RingBufferShm} (access : IasRingBufferAccess)
    (pid : Int) (req now : Nat) (hpid : pid ≠ 0) (h : StateInv s) :
    StateInv (beginAccess access pid req now s).2.1 := by
  have hInv := h
  obtain ⟨h1, h2, h3, h4, h5, h6, h7, h8, h9, h10, h11, h12, h13⟩ := h
  have hU32 : (0 : Nat) < U32 := by simp [U32]
  unfold beginAccess
  cases access with
  | eIasRingBufferAccessUndef => exact hInv
  | eIasRingBufferAccessRead =>
    dsimp only
    rw [if_neg (by simp [h1])]
    cases hfind : findReader pid s.mReaders with
    | none => exact hInv
    | some r =>
      dsimp only
      have hrmem : r ∈ s.mReaders := findReader_mem hfind
      have hrpid : r.pid = pid := findReader_pid hfind
      have hlive : r.pid ≠ 0 := by rw [hrpid]; exact hpid
      have hoN : r.offset + r.allowedToRead ≤ s.mNumBuffers := h11 r hrmem hlive
      have ho : r.offset ≤ s.mNumBuffers := by omega
      have hcalc := calcLevel_spec (s := s) (r := r) ho h4 h3
      set lvl := calculateReaderBufferLevel s r with hlvl
      have hlvlN : r.offset + lvl ≤ s.mWriteOffset ∨
          r.offset + lvl = s.mNumBuffers + s.mWriteOffset := by
        rcases hcalc with ⟨hle, he⟩ | ⟨hlt, he⟩ <;> omega
      set n1 := if req > lvl then lvl else req with hn1
      have hn1le : n1 ≤ lvl := by
        rw [hn1]
        split <;> omega
      have hsum : r.offset + n1 < U32 := by
        rcases hlvlN with hle | heq <;> omega
      have hmod : (r.offset + n1) % U32 = r.offset + n1 := Nat.mod_eq_of_lt hsum
      set n2 := if (r.offset + n1) % U32 ≥ s.mNumBuffers then usub s.mNumBuffers r.offset else n1 with hn2
      have hn2N : r.offset + n2 ≤ s.mNumBuffers := by
        rw [hn2, hmod]
        by_cases hcl : r.offset + n1 ≥ s.mNumBuffers
        · rw [if_pos hcl, usub_eq_sub ho (by omega)]
          omega
        · rw [if_neg hcl]
          omega
      refine ⟨h1, h2, h3, h4, h5, h6, h7, h8, h9, ?_, ?_, ?_, ?_⟩
      · refine updateReader_forall h10 ?_
        intro r0 hr0
        rw [hfind] at hr0
        obtain rfl := Option.some.inj hr0
        intro _
        exact h10 r hrmem hlive
      · refine updateReader_forall h11 ?_
        intro r0 hr0
        rw [hfind] at hr0
        obtain rfl := Option.some.inj hr0
        intro _
        exact hn2N
      · refine updateReader_forall h12 ?_
        intro r0 hr0
        rw [hfind] at hr0
        obtain rfl := Option.some.inj hr0
        intro _
        rcases hcalc with ⟨hle, he⟩ | ⟨hlt, he⟩
        · left
          show r.offset + n2 ≤ s.mWriteOffset
          have hcl : ¬ ((r.offset + n1) % U32 ≥ s.mNumBuffers) := by
            rw [hmod]
            omega
          rw [hn2, if_neg hcl]
          omega
        · rcases h12 r hrmem hlive with hL | hR
          · omega
          · exact Or.inr hR
      · refine updateReader_forall h13 ?_
        intro r0 hr0
        rw [hfind] at hr0
        obtain rfl := Option.some.inj hr0
        intro hz
        exact absurd (hrpid ▸ hz) hpid
  | eIasRingBufferAccessWrite =>
    dsimp only
    rw [if_neg (by simp [h1])]
    by_cases hw : s.mWriteInProgress
    · rw [if_pos hw]
      exact hInv
    · rw [if_neg hw]
      dsimp only
      have hfree : usub s.mNumBuffers s.mBufferLevel = s.mNumBuffers - s.mBufferLevel :=
        usub_eq_sub h6 (by omega)
      set n1 := if req > usub s.mNumBuffers s.mBufferLevel then usub s.mNumBuffers s.mBufferLevel else req with hn1
      have hn1le : n1 ≤ s.mNumBuffers - s.mBufferLevel := by
        rw [hn1, hfree]
        split <;> omega
      have hsum : s.mWriteOffset + n1 < U32 := by omega
      have hmod : (s.mWriteOffset + n1) % U32 = s.mWriteOffset + n1 := Nat.mod_eq_of_lt hsum
      set n2 := if (s.mWriteOffset + n1) % U32 ≥ s.mNumBuffers then usub s.mNumBuffers s.mWriteOffset else n1 with hn2
      have hn2a : n2 ≤ s.mNumBuffers - s.mBufferLevel ∧ s.mWriteOffset + n2 ≤ s.mNumBuffers := by
        rw [hn2, hmod]
        by_cases hcl : s.mWriteOffset + n1 ≥ s.mNumBuffers
        · rw [if_pos hcl, usub_eq_sub (by omega) (by omega)]
          omega
        · rw [if_neg hcl]
          omega
      set n3 := if s.mWriteOffset < s.mReadOffset then s.mReadOffset - s.mWriteOffset - 1 else n2 with hn3
      have hn3a : n3 ≤ s.mNumBuffers - s.mBufferLevel ∧ s.mWriteOffset + n3 ≤ s.mNumBuffers := by
        rw [hn3]
        by_cases hwr : s.mWriteOffset < s.mReadOffset
        · rw [if_pos hwr]
          have hlw := level_of_wrapped hInv hwr
          omega
        · rw [if_neg hwr]
          exact hn2a
      refine ⟨h1, h2, h3, h4, h5, h6, h7, ?_, ?_, h10, h11, h12, h13⟩
      · show n3 + s.mWriteOffset ≤ s.mNumBuffers
        omega
      · intro _
        show n3 + s.mBufferLevel ≤ s.mNumBuffers
        omega

/-! ### Invariant preservation: waits and aggregation -/

theorem inv_waitWrite {s : RingBufferShm} (n t : Nat)
    (oracle : List (IasCondResult × Nat)) (h : StateInv s) :
    StateInv (waitWrite n t oracle s).2 := by
  unfold waitWrite
  split
  · exact h
  · exact h

theorem inv_waitReadLoop {pid : Int} {n : Nat} (hpid : pid ≠ 0) :
    ∀ (oracle : List (IasCondResult × Nat)) (s : RingBufferShm), StateInv s →
      StateInv (waitReadLoop pid n s oracle).2 := by
  intro oracle
  induction oracle with
  | nil =>
    intro s h
    unfold waitReadLoop
    dsimp only
    split
    · exact h
    · exact h
  | cons p rest ih =>
    intro s h
    obtain ⟨c, now2⟩ := p
    unfold waitReadLoop
    dsimp only
    split
    · exact h
    · cases c with
      | timeout => exact inv_stampReader now2 hpid h
      | failed => exact inv_stampReader now2 hpid h
      | ok => exact ih (stampReader pid now2 s) (inv_stampReader now2 hpid h)

theorem inv_waitRead {s : RingBufferShm} (pid : Int) (n t now : Nat)
    (oracle : List (IasCondResult × Nat)) (hpid : pid ≠ 0) (h : StateInv s) :
    StateInv (waitRead pid n t now oracle s).2 := by
  unfold waitRead
  cases hfind : findReader pid s.mReaders with
  | none => exact h
  | some r =>
    dsimp only
    split
    · exact h
    · have h1 : StateInv (if n < s.mReadWaitLevel then { s with mReadWaitLevel := n } else s) := by
        split
        · exact h
        · exact h
      exact inv_waitReadLoop hpid oracle _ (inv_stampReader now hpid h1)

theorem inv_aggregate {s : RingBufferShm} (h : StateInv s)
    (hlive : ∃ r ∈ s.mReaders, r.pid ≠ 0) :
    StateInv (aggregateReaderOffset s) := by
  have hInv := h
  obtain ⟨h1, h2, h3, h4, h5, h6, h7, h8, h9, h10, h11, h12, h13⟩ := h
  obtain ⟨r0, hr0, hr0live⟩ := hlive
  have hU32 : (0 : Nat) < U32 := by simp [U32]
  have hNmax : s.mNumBuffers < UINT32MAX := by
    simp only [U32] at h3
    simp only [UINT32MAX]
    omega
  have hmle : smallerOffsetFold s.mReaders ≤ r0.offset := by
    rw [smallerOffsetFold_eq]
    exact foldl_minStep_le_mem hr0 hr0live _
  have hr0N : r0.offset ≤ s.mNumBuffers := by
    have := h11 r0 hr0 hr0live
    omega
  have hmN : smallerOffsetFold s.mReaders ≤ s.mNumBuffers := le_trans hmle hr0N
  have hmMAX : ¬ (smallerOffsetFold s.mReaders = UINT32MAX) := by omega
  have hmrO : s.mReadOffset ≤ smallerOffsetFold s.mReaders := by
    rw [smallerOffsetFold_eq]
    rcases foldl_minStep_cases s.mReaders UINT32MAX with hc | ⟨rm, hrm, hrmlive, hmeq⟩
    · rw [smallerOffsetFold_eq] at hmMAX
      exact absurd hc hmMAX
    · rw [hmeq]
      exact h10 rm hrm hrmlive
  have hmbL : smallerOffsetFold s.mReaders ≤ s.mReadOffset + s.mBufferLevel := by
    rcases foldl_minStep_cases s.mReaders UINT32MAX with hc | ⟨rm, hrm, hrmlive, hmeq⟩
    · rw [smallerOffsetFold_eq] at hmMAX
      exact absurd hc hmMAX
    · rw [smallerOffsetFold_eq, hmeq]
      rcases h12 rm hrm hrmlive with hL | hR
      · rcases bufferLevel_cases hInv with ⟨hle, hca⟩ | ⟨hlt, hca⟩
        · omega
        · have : s.mReadOffset ≤ rm.offset := h10 rm hrm hrmlive
          omega
      · have : rm.offset + rm.allowedToRead ≤ s.mNumBuffers := h11 rm hrm hrmlive
        omega
  unfold aggregateReaderOffset updateSmallerReaderOffset
  dsimp only
  rw [if_neg hmMAX]
  have husub1 : usub (smallerOffsetFold s.mReaders) s.mReadOffset
      = smallerOffsetFold s.mReaders - s.mReadOffset :=
    usub_eq_sub hmrO (by omega)
  have husub2 : usub s.mBufferLevel (smallerOffsetFold s.mReaders - s.mReadOffset)
      = s.mBufferLevel - (smallerOffsetFold s.mReaders - s.mReadOffset) :=
    usub_eq_sub (by omega) (by omega)
  by_cases hmN2 : smallerOffsetFold s.mReaders = s.mNumBuffers
  · simp only [if_pos hmN2]
    rw [husub1, husub2]
    have hall : ∀ r ∈ s.mReaders, r.pid ≠ 0 → r.offset = s.mNumBuffers := by
      intro r hr hl
      have hle2 : smallerOffsetFold s.mReaders ≤ r.offset := by
        rw [smallerOffsetFold_eq]
        exact foldl_minStep_le_mem hr hl _
      have := h11 r hr hl
      omega
    have hcong : (s.mBufferLevel - (s.mNumBuffers - s.mReadOffset)) % s.mNumBuffers
        = (s.mWriteOffset + s.mNumBuffers - 0) % s.mNumBuffers := by
      have e1 : (s.mBufferLevel - (s.mNumBuffers - s.mReadOffset)) + s.mNumBuffers
          = s.mBufferLevel + s.mReadOffset := by omega
      calc (s.mBufferLevel - (s.mNumBuffers - s.mReadOffset)) % s.mNumBuffers
          = ((s.mBufferLevel - (s.mNumBuffers - s.mReadOffset)) + s.mNumBuffers) % s.mNumBuffers := by
            rw [Nat.add_mod_right]
        _ = (s.mBufferLevel + s.mReadOffset) % s.mNumBuffers := by rw [e1]
        _ = ((s.mWriteOffset + s.mNumBuffers - s.mReadOffset) + s.mReadOffset) % s.mNumBuffers := by
            rw [Nat.add_mod, h7, ← Nat.add_mod]
        _ = (s.mWriteOffset + s.mNumBuffers - 0) % s.mNumBuffers := by
            congr 1
            omega
    refine ⟨h1, h2, h3, h4, ?_, ?_, ?_, h8, ?_, ?_, ?_, ?_, ?_⟩
    · show (0 : Nat) < s.mNumBuffers
      omega
    · show s.mBufferLevel - (smallerOffsetFold s.mReaders - s.mReadOffset) ≤ s.mNumBuffers
      omega
    · show (s.mBufferLevel - (smallerOffsetFold s.mReaders - s.mReadOffset)) % s.mNumBuffers
        = (s.mWriteOffset + s.mNumBuffers - 0) % s.mNumBuffers
      rw [hmN2]
      exact hcong
    · intro hwp
      show s.mAllowedToWrite
          + (s.mBufferLevel - (smallerOffsetFold s.mReaders - s.mReadOffset)) ≤ s.mNumBuffers
      have := h9 hwp
      omega
    · intro r2 hr2 hlive2
      obtain ⟨r, hr, rfl⟩ := List.mem_map.mp hr2
      by_cases hz : r.pid ≠ 0
      · rw [if_pos hz]
      · rw [if_neg hz] at hlive2
        exact absurd (not_not.mp hz) hlive2
    · intro r2 hr2 hlive2
      obtain ⟨r, hr, rfl⟩ := List.mem_map.mp hr2
      by_cases hz : r.pid ≠ 0
      · rw [if_pos hz]
        show 0 + r.allowedToRead ≤ s.mNumBuffers
        have := h11 r hr hz
        omega
      · rw [if_neg hz] at hlive2 ⊢
        exact h11 r hr hlive2
    · intro r2 hr2 hlive2
      obtain ⟨r, hr, rfl⟩ := List.mem_map.mp hr2
      by_cases hz : r.pid ≠ 0
      · rw [if_pos hz]
        left
        show 0 + r.allowedToRead ≤ s.mWriteOffset
        have ha := h11 r hr hz
        have hoeq := hall r hr hz
        omega
      · rw [if_neg hz] at hlive2
        exact absurd (not_not.mp hz) hlive2
    · intro r2 hr2 hz2
      obtain ⟨r, hr, rfl⟩ := List.mem_map.mp hr2
      by_cases hz : r.pid ≠ 0
      · rw [if_pos hz] at hz2 ⊢
        exact absurd hz2 hz
      · rw [if_neg hz] at hz2 ⊢
        exact h13 r hr hz2
  · rw [if_neg hmN2]
    dsimp only
    rw [husub1, husub2, if_neg hmN2, if_pos (by omega : smallerOffsetFold s.mReaders < s.mNumBuffers)]
    have hcong : (s.mBufferLevel - (smallerOffsetFold s.mReaders - s.mReadOffset)) % s.mNumBuffers
        = (s.mWriteOffset + s.mNumBuffers - smallerOffsetFold s.mReaders) % s.mNumBuffers := by
      have e1 : (s.mBufferLevel - (smallerOffsetFold s.mReaders - s.mReadOffset))
          + (smallerOffsetFold s.mReaders - s.mReadOffset) = s.mBufferLevel := by omega
      have e2 : (s.mWriteOffset + s.mNumBuffers - smallerOffsetFold s.mReaders)
          + (smallerOffsetFold s.mReaders - s.mReadOffset)
          = s.mWriteOffset + s.mNumBuffers - s.mReadOffset := by omega
      have hme : (s.mBufferLevel - (smallerOffsetFold s.mReaders - s.mReadOffset))
          + (smallerOffsetFold s.mReaders - s.mReadOffset)
          ≡ (s.mWriteOffset + s.mNumBuffers - smallerOffsetFold s.mReaders)
          + (smallerOffsetFold s.mReaders - s.mReadOffset) [MOD s.mNumBuffers] := by
        rw [Nat.ModEq, e1, e2]
        exact h7
      exact Nat.ModEq.add_right_cancel' _ hme
    refine ⟨h1, h2, h3, h4, ?_, ?_, hcong, h8, ?_, ?_, h11, ?_, h13⟩
    · show smallerOffsetFold s.mReaders < s.mNumBuffers
      omega
    · show s.mBufferLevel - (smallerOffsetFold s.mReaders - s.mReadOffset) ≤ s.mNumBuffers
      omega
    · intro hwp
      show s.mAllowedToWrite
          + (s.mBufferLevel - (smallerOffsetFold s.mReaders - s.mReadOffset)) ≤ s.mNumBuffers
      have := h9 hwp
      omega
    · intro r hr hlive2
      show smallerOffsetFold s.mReaders ≤ r.offset
      rw [smallerOffsetFold_eq]
      exact foldl_minStep_le_mem hr hlive2 _
    · intro r hr hlive2
      rcases h12 r hr hlive2 with hL | hR
      · exact Or.inl hL
      · right
        show smallerOffsetFold s.mReaders
            + (s.mBufferLevel - (smallerOffsetFold s.mReaders - s.mReadOffset))
            = s.mWriteOffset + s.mNumBuffers
        omega

/-! ### Invariant preservation: endAccess -/

theorem inv_endAccess {s : RingBufferShm} (access : IasRingBufferAccess)
    (pid : Int) (offsetArg n now : Nat) (hpid : pid ≠ 0) (h : StateInv s) :
    StateInv (endAccess access pid offsetArg n now s).2 := by
  have hInv := h
  obtain ⟨h1, h2, h3, h4, h5, h6, h7, h8, h9, h10, h11, h12, h13⟩ := h
  have hU32 : (0 : Nat) < U32 := by simp [U32]
  unfold endAccess
  cases access with
  | eIasRingBufferAccessUndef => exact hInv
  | eIasRingBufferAccessRead =>
    dsimp only
    cases hfind : findReader pid s.mReaders with
    | none => exact hInv
    | some r =>
      dsimp only
      by_cases hgt : n > r.allowedToRead
      · rw [if_pos hgt]
        exact hInv
      · rw [if_neg hgt]
        have hrmem : r ∈ s.mReaders := findReader_mem hfind
        have hrpid : r.pid = pid := findReader_pid hfind
        have hlive : r.pid ≠ 0 := by rw [hrpid]; exact hpid
        have hoN : r.offset + r.allowedToRead ≤ s.mNumBuffers := h11 r hrmem hlive
        have hmod : (r.offset + n) % U32 = r.offset + n :=
          Nat.mod_eq_of_lt (by omega)
        have hs1 : StateInv { s with mReaders := updateReader pid (fun r0 => { r0 with allowedToRead := 0, offset := (r0.offset + n) % U32 }) s.mReaders } := by
          refine ⟨h1, h2, h3, h4, h5, h6, h7, h8, h9, ?_, ?_, ?_, ?_⟩
          · refine updateReader_forall h10 ?_
            intro r0 hr0
            rw [hfind] at hr0
            obtain rfl := Option.some.inj hr0
            intro _
            show s.mReadOffset ≤ (r.offset + n) % U32
            rw [hmod]
            have := h10 r hrmem hlive
            omega
          · refine updateReader_forall h11 ?_
            intro r0 hr0
            rw [hfind] at hr0
            obtain rfl := Option.some.inj hr0
            intro _
            show (r.offset + n) % U32 + 0 ≤ s.mNumBuffers
            rw [hmod]
            omega
          · refine updateReader_forall h12 ?_
            intro r0 hr0
            rw [hfind] at hr0
            obtain rfl := Option.some.inj hr0
            intro _
            rcases h12 r hrmem hlive with hL | hR
            · left
              show (r.offset + n) % U32 + 0 ≤ s.mWriteOffset
              rw [hmod]
              omega
            · exact Or.inr hR
          · refine updateReader_forall h13 ?_
            intro r0 hr0
            rw [hfind] at hr0
            obtain rfl := Option.some.inj hr0
            intro hz
            exact absurd (hrpid ▸ hz) hpid
        have hlive1 : ∃ r2 ∈ (updateReader pid (fun r0 => { r0 with allowedToRead := 0, offset := (r0.offset + n) % U32 }) s.mReaders), r2.pid ≠ 0 := by
          have hfind2 := @findReader_updateReader pid
            (fun r0 => { r0 with allowedToRead := 0, offset := (r0.offset + n) % U32 })
            (fun r0 => rfl) s.mReaders
          rw [hfind] at hfind2
          refine ⟨_, findReader_mem hfind2, ?_⟩
          show r.pid ≠ 0
          exact hlive
        exact inv_stampReader now hpid (inv_aggregate hs1 hlive1)
  | eIasRingBufferAccessWrite =>
    by_cases hw : s.mWriteInProgress
    · rw [if_pos hw]
      dsimp only
      by_cases hgt : n > s.mAllowedToWrite
      · rw [if_pos hgt]
        exact hInv
      · rw [if_neg hgt]
        have hwN : s.mWriteOffset + n ≤ s.mNumBuffers := by omega
        have hbN : s.mBufferLevel + n ≤ s.mNumBuffers := by
          have := h9 hw
          omega
        have hmod : (s.mWriteOffset + n) % U32 = s.mWriteOffset + n :=
          Nat.mod_eq_of_lt (by omega)
        have hmodb : (s.mBufferLevel + n) % U32 = s.mBufferLevel + n :=
          Nat.mod_eq_of_lt (by omega)
        simp only [hmod, hmodb]
        by_cases hwrap : s.mWriteOffset + n = s.mNumBuffers
        · rw [if_pos hwrap]
          have hbLle : s.mBufferLevel ≤ s.mWriteOffset := by
            have := h9 hw
            omega
          have hsecond : s.mReadOffset + (s.mBufferLevel + n) = 0 + s.mNumBuffers := by
            rcases bufferLevel_cases hInv with ⟨hle, hca⟩ | ⟨hlt, hca⟩ <;> omega
          refine inv_purge now ⟨h1, h2, h3, ?_, h5, ?_, ?_, ?_, ?_, h10, h11, ?_, h13⟩
          · show (0 : Nat) < s.mNumBuffers
            omega
          · show s.mBufferLevel + n ≤ s.mNumBuffers
            omega
          · show (s.mBufferLevel + n) % s.mNumBuffers
              = (0 + s.mNumBuffers - s.mReadOffset) % s.mNumBuffers
            calc (s.mBufferLevel + n) % s.mNumBuffers
                = ((s.mWriteOffset + s.mNumBuffers - s.mReadOffset) + n) % s.mNumBuffers := by
                  rw [Nat.add_mod, h7, ← Nat.add_mod]
              _ = (s.mNumBuffers + (s.mNumBuffers - s.mReadOffset)) % s.mNumBuffers := by
                  congr 1
                  omega
              _ = (s.mNumBuffers - s.mReadOffset) % s.mNumBuffers := Nat.add_mod_left _ _
              _ = (0 + s.mNumBuffers - s.mReadOffset) % s.mNumBuffers := by
                  congr 1
                  omega
          · show 0 + 0 ≤ s.mNumBuffers
            omega
          · intro habs
            simp at habs
          · intro r hr hlive2
            right
            show s.mReadOffset + (s.mBufferLevel + n) = 0 + s.mNumBuffers
            exact hsecond
        · rw [if_neg hwrap, if_neg (by omega : ¬ (s.mWriteOffset + n > s.mNumBuffers))]
          refine inv_purge now ⟨h1, h2, h3, ?_, h5, ?_, ?_, ?_, ?_, h10, h11, ?_, h13⟩
          · show s.mWriteOffset + n < s.mNumBuffers
            omega
          · show s.mBufferLevel + n ≤ s.mNumBuffers
            omega
          · show (s.mBufferLevel + n) % s.mNumBuffers
              = (s.mWriteOffset + n + s.mNumBuffers - s.mReadOffset) % s.mNumBuffers
            calc (s.mBufferLevel + n) % s.mNumBuffers
                = ((s.mWriteOffset + s.mNumBuffers - s.mReadOffset) + n) % s.mNumBuffers := by
                  rw [Nat.add_mod, h7, ← Nat.add_mod]
              _ = (s.mWriteOffset + n + s.mNumBuffers - s.mReadOffset) % s.mNumBuffers := by
                  congr 1
                  omega
          · show 0 + (s.mWriteOffset + n) ≤ s.mNumBuffers
            omega
          · intro habs
            simp at habs
          · intro r hr hlive2
            rcases h12 r hr hlive2 with hL | hR
            · left
              show r.offset + r.allowedToRead ≤ s.mWriteOffset + n
              omega
            · right
              show s.mReadOffset + (s.mBufferLevel + n) = s.mWriteOffset + n + s.mNumBuffers
              omega
    · rw [if_neg hw]
      exact hInv

/-!
### Traces of legal operations

init is one-shot (the spec declares mInitialized a one-shot flag), so a
run is: the constructor state, one successful init, then any sequence of
the other public operations.  Reader ids are positive (pid_t of a live
process; the spec types ids as i32 > 0).
-/

theorem inv_step {s : RingBufferShm} {e : Event} (hleg : legalEvent e = true)
    (h : StateInv s) : StateInv (step s e) := by
  cases e with
  | evAddReader pid now => exact inv_addReader pid now h
  | evRemoveReader pid => exact inv_removeReader pid h
  | evUpdateAvailable access pid => exact h
  | evBeginAccess access pid req now =>
    have hpid : pid ≠ 0 := by
      simp only [legalEvent, decide_eq_true_eq] at hleg
      omega
    exact inv_beginAccess access pid req now hpid h
  | evEndAccess access pid off n now =>
    have hpid : pid ≠ 0 := by
      simp only [legalEvent, decide_eq_true_eq] at hleg
      omega
    exact inv_endAccess access pid off n now hpid h
  | evWaitRead pid n t now oracle =>
    have hpid : pid ≠ 0 := by
      simp only [legalEvent, decide_eq_true_eq] at hleg
      omega
    exact inv_waitRead pid n t now oracle hpid h
  | evWaitWrite n t oracle => exact inv_waitWrite n t oracle h

theorem inv_runEvents {s : RingBufferShm} (evs : List Event)
    (hleg : ∀ e ∈ evs, legalEvent e = true) (h : StateInv s) :
    StateInv (runEvents s evs) := by
  induction evs generalizing s with
  | nil => exact h
  | cons e es ih =>
    exact ih (fun e2 he2 => hleg e2 (List.mem_cons_of_mem e he2))
      (inv_step (hleg e (List.mem_cons_self e es)) h)

theorem inv_init (ps nb : Nat) (hps : ps ≠ 0) (hnb : 0 < nb)
    (hnb2 : 2 * nb ≤ U32) : StateInv (init ps nb false initialState).2 := by
  unfold init
  rw [if_neg (by simp [hps]; omega)]
  refine ⟨rfl, hnb, hnb2, hnb, hnb, Nat.zero_le _, ?_, ?_, ?_, ?_, ?_, ?_, ?_⟩
  · show (0 : Nat) % nb = (0 + nb - 0) % nb
    simp
  · show 0 + 0 ≤ nb
    omega
  · intro habs
    simp only [initialState] at habs
    exact absurd habs (by simp)
  · intro r hr hlive
    exact Nat.zero_le _
  · intro r hr hlive
    exfalso
    have : r = freeSlot := List.eq_of_mem_replicate hr
    rw [this] at hlive
    exact hlive rfl
  · intro r hr hlive
    exfalso
    have : r = freeSlot := List.eq_of_mem_replicate hr
    rw [this] at hlive
    exact hlive rfl
  · intro r hr _
    exact List.eq_of_mem_replicate hr

/-! ### Claim C1 -/

/-- C1 (counterexample): after init(1, 4) and the legal fill-to-full
trace, every beginAccess is paired with its endAccess and no borrow is in
flight, yet bufferLevel = 4 while (writeOffset - readOffset) mod
numBuffers = 0: the claimed equality is false in the completely full
state. -/
theorem C1_counterexample :
    (init 1 4 false initialState).1 = eIasRingBuffOk ∧
    (∀ e ∈ c1CounterTrace, legalEvent e = true) ∧
    (runEvents (init 1 4 false initialState).2 c1CounterTrace).mWriteInProgress = false ∧
    ¬ (((runEvents (init 1 4 false initialState).2 c1CounterTrace).mBufferLevel : Int)
        = (((runEvents (init 1 4 false initialState).2 c1CounterTrace).mWriteOffset : Int)
            - ((runEvents (init 1 4 false initialState).2 c1CounterTrace).mReadOffset : Int))
          % ((runEvents (init 1 4 false initialState).2 c1CounterTrace).mNumBuffers : Int)) := by
  decide

/-- C1 (amended): after a successful init with numBuffers ≤ 2^31 and any
sequence of legal operations, bufferLevel ≤ numBuffers and bufferLevel is
congruent to writeOffset - readOffset modulo numBuffers; the literal
equality bufferLevel = (writeOffset - readOffset) mod numBuffers holds
in every state except the completely full one (bufferLevel = numBuffers,
where the mod expression yields 0). -/
theorem C1_bufferLevel_congruence (ps nb : Nat) (evs : List Event)
    (hps : ps ≠ 0) (hnb : 0 < nb) (hnb2 : 2 * nb ≤ U32)
    (hleg : ∀ e ∈ evs, legalEvent e = true) :
    (runEvents (init ps nb false initialState).2 evs).mBufferLevel
        ≤ (runEvents (init ps nb false initialState).2 evs).mNumBuffers ∧
    (runEvents (init ps nb false initialState).2 evs).mBufferLevel
        % (runEvents (init ps nb false initialState).2 evs).mNumBuffers
      = ((runEvents (init ps nb false initialState).2 evs).mWriteOffset
          + (runEvents (init ps nb false initialState).2 evs).mNumBuffers
          - (runEvents (init ps nb false initialState).2 evs).mReadOffset)
        % (runEvents (init ps nb false initialState).2 evs).mNumBuffers ∧
    ((runEvents (init ps nb false initialState).2 evs).mBufferLevel
        < (runEvents (init ps nb false initialState).2 evs).mNumBuffers →
      ((runEvents (init ps nb false initialState).2 evs).mBufferLevel : Int)
        = (((runEvents (init ps nb false initialState).2 evs).mWriteOffset : Int)
            - ((runEvents (init ps nb false initialState).2 evs).mReadOffset : Int))
          % ((runEvents (init ps nb false initialState).2 evs).mNumBuffers : Int)) := by
  have hS := inv_runEvents evs hleg (inv_init ps nb hps hnb hnb2)
  obtain ⟨h1, h2, h3, h4, h5, h6, h7, h8, h9, h10, h11, h12, h13⟩ := hS
  refine ⟨h6, h7, ?_⟩
  intro hlt
  set sEnd := runEvents (init ps nb false initialState).2 evs with hsEnd
  have hbl : sEnd.mBufferLevel
      = (sEnd.mWriteOffset + sEnd.mNumBuffers - sEnd.mReadOffset) % sEnd.mNumBuffers := by
    rw [← h7]
    exact (Nat.mod_eq_of_lt hlt).symm
  have e2 : (sEnd.mWriteOffset : Int) - (sEnd.mReadOffset : Int) + (sEnd.mNumBuffers : Int)
      = ((sEnd.mWriteOffset + sEnd.mNumBuffers - sEnd.mReadOffset : Nat) : Int) := by
    push_cast
    omega
  calc (sEnd.mBufferLevel : Int)
      = ((sEnd.mWriteOffset + sEnd.mNumBuffers - sEnd.mReadOffset) % sEnd.mNumBuffers : Nat) := by
        rw [← hbl]
    _ = ((sEnd.mWriteOffset + sEnd.mNumBuffers - sEnd.mReadOffset : Nat) : Int)
        % ((sEnd.mNumBuffers : Nat) : Int) := by
        push_cast
        ring
    _ = ((sEnd.mWriteOffset : Int) - (sEnd.mReadOffset : Int) + (sEnd.mNumBuffers : Int))
        % (sEnd.mNumBuffers : Int) := by rw [e2]
    _ = ((sEnd.mWriteOffset : Int) - (sEnd.mReadOffset : Int)) % (sEnd.mNumBuffers : Int) :=
        Int.emod_eq_add_self_emod.symm

/-- C1 (witness): the amended congruence instantiated on a concrete legal
trace (init(1, 4), one reader added, writer produces two slots). -/
theorem C1_bufferLevel_congruence_witness :
    (∀ e ∈ c1WitnessTrace, legalEvent e = true) ∧
    (runEvents (init 1 4 false initialState).2 c1WitnessTrace).mBufferLevel
        % (runEvents (init 1 4 false initialState).2 c1WitnessTrace).mNumBuffers
      = ((runEvents (init 1 4 false initialState).2 c1WitnessTrace).mWriteOffset
          + (runEvents (init 1 4 false initialState).2 c1WitnessTrace).mNumBuffers
          - (runEvents (init 1 4 false initialState).2 c1WitnessTrace).mReadOffset)
        % (runEvents (init 1 4 false initialState).2 c1WitnessTrace).mNumBuffers :=
  ⟨by decide,
    (C1_bufferLevel_congruence 1 4 c1WitnessTrace (by decide) (by decide) (by decide)
      (by decide)).2.1⟩

/-! ### Helpers for the remaining claims -/

theorem beginAccess_write_eq {s : RingBufferShm} (pid : Int) (req now : Nat)
    (h1 : s.initDone = true) (hw : s.mWriteInProgress = false) :
    beginAccess .eIasRingBufferAccessWrite pid req now s
      = (eIasRingBuffOk,
          { s with mWriteInProgress := true, mAllowedToWrite := writeGrantCount s req,
                   mWriterLastAccess := now },
          some ⟨s.mWriteOffset, writeGrantCount s req⟩) := by
  unfold beginAccess writeGrantCount
  dsimp only
  rw [if_neg (by simp [h1]), if_neg (by simp [hw])]

theorem beginAccess_read_eq {s : RingBufferShm} (pid : Int) (req now : Nat)
    {r : RingBufferReader} (h1 : s.initDone = true)
    (hfind : findReader pid s.mReaders = some r) :
    beginAccess .eIasRingBufferAccessRead pid req now s
      = (eIasRingBuffOk,
          { s with mReaders := updateReader pid (fun r0 => { r0 with allowedToRead := readGrantCount s r req, lastAccess := now }) s.mReaders },
          some ⟨r.offset, readGrantCount s r req⟩) := by
  unfold beginAccess readGrantCount
  dsimp only
  rw [if_neg (by simp [h1]), hfind]

theorem findReader_eq_none {pid : Int} {l : List RingBufferReader}
    (h : ∀ r ∈ l, r.pid ≠ pid) : findReader pid l = none := by
  induction l with
  | nil => rfl
  | cons a as ih =>
    simp only [findReader]
    rw [if_neg (by simpa using h a (List.mem_cons_self a as))]
    exact ih (fun r hr => h r (List.mem_cons_of_mem a hr))

/-- The waitWrite loop only ever produces Ok, Timeout or CondWaitFailed. -/
theorem waitWriteLoop_mem {wwl : Nat} :
    ∀ (oracle : List (IasCondResult × Nat)) (lvl : Nat) (r : IasVideoRingBufferResult),
      waitWriteLoop wwl lvl oracle = some r →
      r = eIasRingBuffOk ∨ r = eIasRingBuffTimeOut ∨ r = eIasRingBuffCondWaitFailed := by
  intro oracle
  induction oracle with
  | nil =>
    intro lvl r h
    unfold waitWriteLoop at h
    split at h
    · exact Or.inl (Option.some.inj h).symm
    · simp at h
  | cons p rest ih =>
    intro lvl r h
    obtain ⟨c, lvl2⟩ := p
    unfold waitWriteLoop at h
    split at h
    · exact Or.inl (Option.some.inj h).symm
    · cases c with
      | timeout =>
        dsimp only at h
        obtain rfl := (Option.some.inj h).symm
        split <;> simp
      | failed =>
        dsimp only at h
        exact Or.inr (Or.inr (Option.some.inj h).symm)
      | ok => exact ih lvl2 r h

/-- The waitRead loop only ever produces Ok, Timeout or CondWaitFailed. -/
theorem waitReadLoop_mem {pid : Int} {n : Nat} :
    ∀ (oracle : List (IasCondResult × Nat)) (s : RingBufferShm) (r : IasVideoRingBufferResult),
      (waitReadLoop pid n s oracle).1 = some r →
      r = eIasRingBuffOk ∨ r = eIasRingBuffTimeOut ∨ r = eIasRingBuffCondWaitFailed := by
  intro oracle
  induction oracle with
  | nil =>
    intro s r h
    unfold waitReadLoop at h
    dsimp only at h
    split at h
    · exact Or.inl (Option.some.inj h).symm
    · simp at h
  | cons p rest ih =>
    intro s r h
    obtain ⟨c, now2⟩ := p
    cases c with
    | timeout =>
      unfold waitReadLoop at h
      dsimp only at h
      split at h
      · exact Or.inl (Option.some.inj h).symm
      · obtain rfl := (Option.some.inj h).symm
        split <;> simp
    | failed =>
      unfold waitReadLoop at h
      dsimp only at h
      split at h
      · exact Or.inl (Option.some.inj h).symm
      · exact Or.inr (Or.inr (Option.some.inj h).symm)
    | ok =>
      unfold waitReadLoop at h
      dsimp only at h
      split at h
      · exact Or.inl (Option.some.inj h).symm
      · exact ih _ r h

/-- A table with no entry for pid maps to itself under removal of pid. -/
theorem removeMap_id {pid : Int} {l : List RingBufferReader}
    (h : ∀ r ∈ l, r.pid ≠ pid) :
    l.map (fun r => if r.pid == pid then freeSlot else r) = l := by
  induction l with
  | nil => rfl
  | cons a as ih =>
    simp only [List.map]
    rw [if_neg (by simpa using h a (List.mem_cons_self a as))]
    rw [ih (fun r hr => h r (List.mem_cons_of_mem a hr))]

/-- Removing pid right after addReader assigned it to the first free slot
restores the original table, provided no other entry held pid and free
slots are zeroed. -/
theorem addReaderAux_remove {pid : Int} {off now : Nat}
    {l rs : List RingBufferReader}
    (haux : addReaderAux pid off now l = some rs)
    (hnodup : ∀ r ∈ l, r.pid ≠ pid)
    (hfree : ∀ r ∈ l, r.pid = 0 → r = freeSlot) :
    rs.map (fun r => if r.pid == pid then freeSlot else r) = l := by
  induction l generalizing rs with
  | nil => simp [addReaderAux] at haux
  | cons a as ih =>
    simp only [addReaderAux] at haux
    by_cases hz : a.pid = 0
    · rw [if_pos (by simpa using hz)] at haux
      obtain rfl := Option.some.inj haux
      simp only [List.map]
      rw [if_pos (by simp)]
      rw [removeMap_id (fun r hr => hnodup r (List.mem_cons_of_mem a hr))]
      have ha : a = freeSlot := hfree a (List.mem_cons_self a as) hz
      rw [ha]
    · rw [if_neg (by simpa using hz)] at haux
      cases haux2 : addReaderAux pid off now as with
      | none => rw [haux2] at haux; simp at haux
      | some rs2 =>
        rw [haux2] at haux
        have haux3 : some (a :: rs2) = some rs := by simpa using haux
        obtain rfl := Option.some.inj haux3
        simp only [List.map]
        rw [if_neg (by simpa using hnodup a (List.mem_cons_self a as))]
        rw [ih haux2 (fun r hr => hnodup r (List.mem_cons_of_mem a hr))
          (fun r hr hz2 => hfree r (List.mem_cons_of_mem a hr) hz2)]

/-! ### Claim C2 -/

/-- C2 (counterexample): in the reachable state with writeOffset = 0 <
readOffset = 3, a successful beginAccess(write) requesting 1 slot writes
back a grant of 2 slots: the granted count exceeds the request. -/
theorem C2_counterexample :
    (∀ e ∈ c2Trace, legalEvent e = true) ∧
    (beginAccess .eIasRingBufferAccessWrite 1 1 0
      (runEvents (init 1 4 false initialState).2 c2Trace)).1 = eIasRingBuffOk ∧
    ¬ (∀ g : AccessGrant,
        (beginAccess .eIasRingBufferAccessWrite 1 1 0
          (runEvents (init 1 4 false initialState).2 c2Trace)).2.2 = some g →
        g.count ≤ 1) := by
  decide

/-- C2 (amended): in an invariant state with no write borrow in flight,
the write grant never exceeds the request while readOffset ≤ writeOffset;
when writeOffset < readOffset the grant is set unconditionally to
readOffset - writeOffset - 1 (which can exceed the request, as the
counterexample shows); the grant never exceeds the free space. -/
theorem C2_writeGrant_clamp {s : RingBufferShm} (pid : Int) (req now : Nat)
    (h : StateInv s) (hw : s.mWriteInProgress = false) :
    (s.mReadOffset ≤ s.mWriteOffset → writeGrantCount s req ≤ req) ∧
    (s.mWriteOffset < s.mReadOffset →
      writeGrantCount s req = s.mReadOffset - s.mWriteOffset - 1) ∧
    writeGrantCount s req + s.mBufferLevel ≤ s.mNumBuffers ∧
    (beginAccess .eIasRingBufferAccessWrite pid req now s).2.2
      = some ⟨s.mWriteOffset, writeGrantCount s req⟩ := by
  have hInv := h
  obtain ⟨h1, h2, h3, h4, h5, h6, h7, h8, h9, -⟩ := h
  have hfree : usub s.mNumBuffers s.mBufferLevel = s.mNumBuffers - s.mBufferLevel :=
    usub_eq_sub h6 (by omega)
  unfold writeGrantCount
  dsimp only
  set n1 := if req > usub s.mNumBuffers s.mBufferLevel then usub s.mNumBuffers s.mBufferLevel else req with hn1
  have hn1a : n1 ≤ s.mNumBuffers - s.mBufferLevel ∧ n1 ≤ req := by
    rw [hn1, hfree]
    split <;> omega
  have hmod : (s.mWriteOffset + n1) % U32 = s.mWriteOffset + n1 :=
    Nat.mod_eq_of_lt (by omega)
  set n2 := if (s.mWriteOffset + n1) % U32 ≥ s.mNumBuffers then usub s.mNumBuffers s.mWriteOffset else n1 with hn2
  have hn2a : n2 ≤ s.mNumBuffers - s.mBufferLevel ∧ n2 ≤ req := by
    rw [hn2, hmod]
    by_cases hcl : s.mWriteOffset + n1 ≥ s.mNumBuffers
    · rw [if_pos hcl, usub_eq_sub (by omega) (by omega)]
      omega
    · rw [if_neg hcl]
      omega
  refine ⟨?_, ?_, ?_, ?_⟩
  · intro hro
    rw [if_neg (by omega)]
    omega
  · intro hro
    rw [if_pos hro]
  · by_cases hro : s.mWriteOffset < s.mReadOffset
    · rw [if_pos hro]
      have hlw := level_of_wrapped hInv hro
      omega
    · rw [if_neg hro]
      omega
  · rw [beginAccess_write_eq pid req now h1 hw]
    rfl

/-- C2 (witness): on the counterexample state the amended rule computes
the grant readOffset - writeOffset - 1. -/
theorem C2_writeGrant_clamp_witness :
    StateInv (runEvents (init 1 4 false initialState).2 c2Trace) ∧
    (runEvents (init 1 4 false initialState).2 c2Trace).mWriteOffset
      < (runEvents (init 1 4 false initialState).2 c2Trace).mReadOffset ∧
    writeGrantCount (runEvents (init 1 4 false initialState).2 c2Trace) 1
      = (runEvents (init 1 4 false initialState).2 c2Trace).mReadOffset
        - (runEvents (init 1 4 false initialState).2 c2Trace).mWriteOffset - 1 :=
  ⟨by decide, by decide,
    (C2_writeGrant_clamp (s := runEvents (init 1 4 false initialState).2 c2Trace)
      1 1 0 (by decide) (by decide)).2.1 (by decide)⟩

/-! ### Claim C3 -/

/-- C3 (counterexample): with a write borrow in flight, n = 2 ≤
allowedToWrite and writeOffset + n = 5 > numBuffers = 4, endAccess(write)
returns InvalidParam but does NOT leave the control block untouched: it
has already zeroed allowedToWrite. -/
theorem C3_counterexample :
    c3State.mWriteInProgress = true ∧
    (2 : Nat) ≤ c3State.mAllowedToWrite ∧
    c3State.mWriteOffset + 2 > c3State.mNumBuffers ∧
    (endAccess .eIasRingBufferAccessWrite 1 0 2 0 c3State).1 = eIasRingBuffInvalidParam ∧
    ¬ ((endAccess .eIasRingBufferAccessWrite 1 0 2 0 c3State).2 = c3State) := by
  decide

/-- C3 (amended): on the geometry violation endAccess(write) returns
InvalidParam with writeOffset, bufferLevel, writeInProgress (hence the
held writer-borrow mutex) and the reader table unchanged, but with
allowedToWrite zeroed (the zeroing precedes the check in the source). -/
theorem C3_endWrite_geometry {s : RingBufferShm} (pid : Int) (off n now : Nat)
    (hw : s.mWriteInProgress = true) (hn : n ≤ s.mAllowedToWrite)
    (hgeo : (s.mWriteOffset + n) % U32 > s.mNumBuffers) :
    endAccess .eIasRingBufferAccessWrite pid off n now s
      = (eIasRingBuffInvalidParam, { s with mAllowedToWrite := 0 }) := by
  unfold endAccess
  dsimp only
  rw [if_pos hw, if_neg (by omega), if_neg (by omega), if_pos hgeo]

/-- C3 (witness): the amended statement evaluated on the corrupted
concrete state. -/
theorem C3_endWrite_geometry_witness :
    endAccess .eIasRingBufferAccessWrite 1 0 2 0 c3State
      = (eIasRingBuffInvalidParam, { c3State with mAllowedToWrite := 0 }) :=
  C3_endWrite_geometry 1 0 2 0 (by decide) (by decide) (by decide)

/-! ### Claim C4 -/

/-- C4 (counterexample): addReader performs no initialization check; on
the never-initialized constructor state it succeeds with Ok instead of
returning NotInitialized. -/
theorem C4_counterexample :
    initialState.initDone = false ∧
    (addReader 5 0 initialState).1 = eIasRingBuffOk ∧
    eIasRingBuffOk ≠ eIasRingBuffNotInitialized := by
  decide

/-- C4 (amended): before init only updateAvailable and beginAccess (with
defined access and valid pointers) return NotInitialized; addReader,
removeReader, endAccess, waitRead and waitWrite never do (addReader can
even succeed, as the counterexample shows). -/
theorem C4_notInitialized_coverage {s : RingBufferShm} (hinit : s.initDone = false) :
    (∀ pid req now, (beginAccess .eIasRingBufferAccessRead pid req now s).1
      = eIasRingBuffNotInitialized) ∧
    (∀ pid req now, (beginAccess .eIasRingBufferAccessWrite pid req now s).1
      = eIasRingBuffNotInitialized) ∧
    (∀ pid, (updateAvailable .eIasRingBufferAccessRead pid s).1
      = eIasRingBuffNotInitialized) ∧
    (∀ pid, (updateAvailable .eIasRingBufferAccessWrite pid s).1
      = eIasRingBuffNotInitialized) ∧
    (∀ pid now, (addReader pid now s).1 ≠ eIasRingBuffNotInitialized) ∧
    (∀ pid, (removeReader pid s).1 ≠ eIasRingBuffNotInitialized) ∧
    (∀ access pid off n now, (endAccess access pid off n now s).1
      ≠ eIasRingBuffNotInitialized) ∧
    (∀ pid n t now oracle r, (waitRead pid n t now oracle s).1 = some r →
      r ≠ eIasRingBuffNotInitialized) ∧
    (∀ n t oracle r, (waitWrite n t oracle s).1 = some r →
      r ≠ eIasRingBuffNotInitialized) := by
  refine ⟨?_, ?_, ?_, ?_, ?_, ?_, ?_, ?_, ?_⟩
  · intro pid req now
    unfold beginAccess
    dsimp only
    rw [if_pos hinit]
  · intro pid req now
    unfold beginAccess
    dsimp only
    rw [if_pos hinit]
  · intro pid
    unfold updateAvailable
    dsimp only
    rw [if_pos hinit]
  · intro pid
    unfold updateAvailable
    dsimp only
    rw [if_pos hinit]
  · intro pid now
    unfold addReader
    by_cases hple : pid ≤ 0
    · rw [if_pos hple]
      simp
    · rw [if_neg hple]
      cases haux : addReaderAux pid s.mReadOffset now s.mReaders with
      | none => simp
      | some rs => simp
  · intro pid
    unfold removeReader
    by_cases hple : pid ≤ 0
    · rw [if_pos hple]
      simp
    · rw [if_neg hple]
      dsimp only
      split <;> simp
  · intro access pid off n now
    unfold endAccess
    cases access with
    | eIasRingBufferAccessUndef => simp
    | eIasRingBufferAccessRead =>
      dsimp only
      cases hfind : findReader pid s.mReaders with
      | none => simp
      | some r =>
        dsimp only
        by_cases hgt : n > r.allowedToRead
        · rw [if_pos hgt]
          simp
        · rw [if_neg hgt]
          simp
    | eIasRingBufferAccessWrite =>
      by_cases hwp : s.mWriteInProgress
      · rw [if_pos hwp]
        dsimp only
        by_cases hgt : n > s.mAllowedToWrite
        · rw [if_pos hgt]
          simp
        · rw [if_neg hgt]
          by_cases hwrap : (s.mWriteOffset + n) % U32 = s.mNumBuffers
          · rw [if_pos hwrap]
            simp
          · rw [if_neg hwrap]
            by_cases hover : (s.mWriteOffset + n) % U32 > s.mNumBuffers
            · rw [if_pos hover]
              simp
            · rw [if_neg hover]
              simp
      · rw [if_neg hwp]
        simp
  · intro pid n t now oracle r hr
    unfold waitRead at hr
    cases hfind : findReader pid s.mReaders with
    | none =>
      rw [hfind] at hr
      dsimp only at hr
      obtain rfl := (Option.some.inj hr).symm
      simp
    | some r0 =>
      rw [hfind] at hr
      dsimp only at hr
      split at hr
      · obtain rfl := (Option.some.inj hr).symm
        simp
      · rcases waitReadLoop_mem _ _ r hr with h | h | h <;> (rw [h]; simp)
  · intro n t oracle r hr
    unfold waitWrite at hr
    split at hr
    · obtain rfl := (Option.some.inj hr).symm
      simp
    · dsimp only at hr
      rcases waitWriteLoop_mem oracle s.mBufferLevel r hr with h | h | h <;> (rw [h]; simp)

/-- C4 (witness): the amended statement on the constructor state. -/
theorem C4_witness :
    initialState.initDone = false ∧
    (beginAccess .eIasRingBufferAccessRead 5 1 0 initialState).1
      = eIasRingBuffNotInitialized ∧
    (addReader 5 0 initialState).1 ≠ eIasRingBuffNotInitialized :=
  ⟨rfl, (C4_notInitialized_coverage (s := initialState) rfl).1 5 1 0,
    (C4_notInitialized_coverage (s := initialState) rfl).2.2.2.2.1 5 0⟩

/-! ### Claim C5 -/

/-- C5: a successful beginAccess(read) for a registered reader clamps the
request first to calculateReaderBufferLevel and then, when
offset + n ≥ numBuffers, to numBuffers - offset; the returned run starts
at the reader's offset and never extends past the physical end, and
allowedToRead records the grant. -/
theorem C5_readGrant {s : RingBufferShm} (pid : Int) (req now : Nat)
    (h : StateInv s) (hpid : pid ≠ 0) {r : RingBufferReader}
    (hfind : findReader pid s.mReaders = some r) :
    (beginAccess .eIasRingBufferAccessRead pid req now s).1 = eIasRingBuffOk ∧
    (beginAccess .eIasRingBufferAccessRead pid req now s).2.2
      = some ⟨r.offset, readGrantCount s r req⟩ ∧
    readGrantCount s r req
      = (if r.offset + (if req > calculateReaderBufferLevel s r
                        then calculateReaderBufferLevel s r else req) ≥ s.mNumBuffers
         then s.mNumBuffers - r.offset
         else if req > calculateReaderBufferLevel s r
              then calculateReaderBufferLevel s r else req) ∧
    r.offset + readGrantCount s r req ≤ s.mNumBuffers ∧
    findReader pid (beginAccess .eIasRingBufferAccessRead pid req now s).2.1.mReaders
      = some { r with allowedToRead := readGrantCount s r req, lastAccess := now } := by
  have hInv := h
  obtain ⟨h1, h2, h3, h4, h5, h6, h7, h8, h9, h10, h11, h12, h13⟩ := h
  have hrmem : r ∈ s.mReaders := findReader_mem hfind
  have hrpid : r.pid = pid := findReader_pid hfind
  have hlive : r.pid ≠ 0 := by rw [hrpid]; exact hpid
  have hoN : r.offset + r.allowedToRead ≤ s.mNumBuffers := h11 r hrmem hlive
  have ho : r.offset ≤ s.mNumBuffers := by omega
  have hcalc := calcLevel_spec (s := s) (r := r) ho h4 h3
  have hlvlN : r.offset + calculateReaderBufferLevel s r ≤ s.mWriteOffset ∨
      r.offset + calculateReaderBufferLevel s r = s.mNumBuffers + s.mWriteOffset := by
    rcases hcalc with ⟨hle, he⟩ | ⟨hlt, he⟩ <;> omega
  have hn1le : (if req > calculateReaderBufferLevel s r
      then calculateReaderBufferLevel s r else req) ≤ calculateReaderBufferLevel s r := by
    split <;> omega
  have hsum : r.offset + (if req > calculateReaderBufferLevel s r
      then calculateReaderBufferLevel s r else req) < U32 := by
    have hU32 : (0 : Nat) < U32 := by simp [U32]
    rcases hlvlN with hle | heq <;> omega
  have hmod : (r.offset + (if req > calculateReaderBufferLevel s r
      then calculateReaderBufferLevel s r else req)) % U32
      = r.offset + (if req > calculateReaderBufferLevel s r
        then calculateReaderBufferLevel s r else req) := Nat.mod_eq_of_lt hsum
  have hgc : readGrantCount s r req
      = (if r.offset + (if req > calculateReaderBufferLevel s r
                        then calculateReaderBufferLevel s r else req) ≥ s.mNumBuffers
         then s.mNumBuffers - r.offset
         else if req > calculateReaderBufferLevel s r
              then calculateReaderBufferLevel s r else req) := by
    unfold readGrantCount
    dsimp only
    rw [hmod]
    by_cases hcl : r.offset + (if req > calculateReaderBufferLevel s r
        then calculateReaderBufferLevel s r else req) ≥ s.mNumBuffers
    · rw [if_pos hcl, if_pos hcl]
      refine usub_eq_sub ho ?_
      have h3b := h3
      simp only [U32] at h3b ⊢
      omega
    · rw [if_neg hcl, if_neg hcl]
  refine ⟨?_, ?_, hgc, ?_, ?_⟩
  · rw [beginAccess_read_eq pid req now h1 hfind]
  · rw [beginAccess_read_eq pid req now h1 hfind]
  · rw [hgc]
    by_cases hcl : r.offset + (if req > calculateReaderBufferLevel s r
        then calculateReaderBufferLevel s r else req) ≥ s.mNumBuffers
    · rw [if_pos hcl]
      omega
    · rw [if_neg hcl]
      omega
  · rw [beginAccess_read_eq pid req now h1 hfind]
    dsimp only
    rw [findReader_updateReader
      (f := fun r0 => { r0 with allowedToRead := readGrantCount s r req, lastAccess := now })
      (fun r0 => rfl) s.mReaders, hfind]
    rfl

/-- C5 (witness): the grant bound instantiated on the concrete state with
reader 100 at offset 0 requesting 3 of 4 slots. -/
theorem C5_readGrant_witness :
    StateInv c5State ∧
    (⟨100, 0, 0, 0⟩ : RingBufferReader).offset
      + readGrantCount c5State ⟨100, 0, 0, 0⟩ 3 ≤ c5State.mNumBuffers :=
  ⟨by decide,
    (C5_readGrant (s := c5State) 100 3 7 (by decide) (by decide)
      (r := ⟨100, 0, 0, 0⟩) (by decide)).2.2.2.1⟩

/-! ### Claim C6 -/

/-- C6: during the writer-side housekeeping step, a live table entry is
zeroed if and only if now > lastAccess and now - lastAccess exceeds
READER_TIMEOUT_NS = 2e9 ns; once every entry of an id has been purged,
lookups fail, so the membership-requiring calls (beginAccess(read),
updateAvailable(read), endAccess(read), waitRead) return InvalidParam. -/
theorem C6_purge {s : RingBufferShm} (now : Nat) :
    ((purgeUnresponsiveReaders now s).mReaders.length = s.mReaders.length) ∧
    (∀ (i : Nat) (hi : i < s.mReaders.length)
        (hi2 : i < (purgeUnresponsiveReaders now s).mReaders.length),
      (s.mReaders.get ⟨i, hi⟩).pid ≠ 0 →
      ((purgeUnresponsiveReaders now s).mReaders.get ⟨i, hi2⟩ = freeSlot ↔
        (now > (s.mReaders.get ⟨i, hi⟩).lastAccess ∧
          now - (s.mReaders.get ⟨i, hi⟩).lastAccess > READER_TIMEOUT_NS))) ∧
    (∀ pid : Int, pid ≠ 0 →
      (∀ r ∈ s.mReaders, r.pid = pid →
        now > r.lastAccess ∧ now - r.lastAccess > READER_TIMEOUT_NS) →
      findReader pid (purgeUnresponsiveReaders now s).mReaders = none ∧
      (s.initDone = true → ∀ req now2,
        (beginAccess .eIasRingBufferAccessRead pid req now2
          (purgeUnresponsiveReaders now s)).1 = eIasRingBuffInvalidParam) ∧
      (s.initDone = true →
        (updateAvailable .eIasRingBufferAccessRead pid
          (purgeUnresponsiveReaders now s)).1 = eIasRingBuffInvalidParam) ∧
      (∀ off n now2,
        (endAccess .eIasRingBufferAccessRead pid off n now2
          (purgeUnresponsiveReaders now s)).1 = eIasRingBuffInvalidParam) ∧
      (∀ n t now2 oracle,
        (waitRead pid n t now2 oracle (purgeUnresponsiveReaders now s)).1
          = some eIasRingBuffInvalidParam)) := by
  have hlen : (purgeUnresponsiveReaders now s).mReaders.length = s.mReaders.length := by
    unfold purgeUnresponsiveReaders
    exact List.length_map _ _
  refine ⟨hlen, ?_, ?_⟩
  · intro i hi hi2 hlive
    have hget : (purgeUnresponsiveReaders now s).mReaders.get ⟨i, hi2⟩
        = (if (s.mReaders.get ⟨i, hi⟩).pid ≠ 0
              ∧ now > (s.mReaders.get ⟨i, hi⟩).lastAccess
              ∧ now - (s.mReaders.get ⟨i, hi⟩).lastAccess > READER_TIMEOUT_NS
           then freeSlot else s.mReaders.get ⟨i, hi⟩) := by
      unfold purgeUnresponsiveReaders
      simp [List.get_eq_getElem]
    rw [hget]
    by_cases hc : now > (s.mReaders.get ⟨i, hi⟩).lastAccess
        ∧ now - (s.mReaders.get ⟨i, hi⟩).lastAccess > READER_TIMEOUT_NS
    · rw [if_pos ⟨hlive, hc⟩]
      exact ⟨fun _ => hc, fun _ => rfl⟩
    · rw [if_neg (by tauto)]
      constructor
      · intro heq
        rw [heq] at hlive
        exact absurd rfl hlive
      · intro hc2
        exact absurd hc2 hc
  · intro pid hpid hall
    have hnone : findReader pid (purgeUnresponsiveReaders now s).mReaders = none := by
      apply findReader_eq_none
      intro r2 hr2
      unfold purgeUnresponsiveReaders at hr2
      obtain ⟨r, hr, rfl⟩ := List.mem_map.mp hr2
      by_cases hc : r.pid ≠ 0 ∧ now > r.lastAccess ∧ now - r.lastAccess > READER_TIMEOUT_NS
      · rw [if_pos hc]
        show (0 : Int) ≠ pid
        omega
      · rw [if_neg hc]
        intro heq
        exact hc ⟨by rw [heq]; exact hpid, hall r hr heq⟩
    refine ⟨hnone, ?_, ?_, ?_, ?_⟩
    · intro hinit req now2
      unfold beginAccess
      dsimp only
      rw [if_neg (by simp [purgeUnresponsiveReaders, hinit]), hnone]
    · intro hinit
      unfold updateAvailable
      dsimp only
      rw [if_neg (by simp [purgeUnresponsiveReaders, hinit]), hnone]
    · intro off n now2
      unfold endAccess
      dsimp only
      rw [hnone]
    · intro n t now2 oracle
      unfold waitRead
      rw [hnone]

/-- C6 (witness): reader 9 stamped at 0 is purged at now = 3e9 and its
subsequent beginAccess(read) fails with InvalidParam. -/
theorem C6_purge_witness :
    findReader 9 (purgeUnresponsiveReaders 3000000000 c6State).mReaders = none ∧
    (beginAccess .eIasRingBufferAccessRead 9 1 0
      (purgeUnresponsiveReaders 3000000000 c6State)).1 = eIasRingBuffInvalidParam :=
  ⟨((C6_purge (s := c6State) 3000000000).2.2 9 (by decide) (by decide)).1,
    ((C6_purge (s := c6State) 3000000000).2.2 9 (by decide) (by decide)).2.1 (by decide) 1 0⟩

/-! ### Claim C7 -/

/-- C7: waitWrite validates its arguments (InvalidParam exactly when
n = 0, n > numBuffers or timeout = 0), otherwise publishes
writeWaitLevel = numBuffers - n; a timed wait that reports timeout ends
the loop with Timeout if the fullness predicate still holds at the
wake-up and Ok otherwise, and any other primitive failure ends it with
CondWaitFailed. -/
theorem C7_waitWrite {s : RingBufferShm} (n t : Nat)
    (oracle : List (IasCondResult × Nat)) :
    ((waitWrite n t oracle s).1 = some eIasRingBuffInvalidParam ↔
      (n = 0 ∨ n > s.mNumBuffers ∨ t = 0)) ∧
    (¬ (n = 0 ∨ n > s.mNumBuffers ∨ t = 0) →
      (waitWrite n t oracle s).2.mWriteWaitLevel = s.mNumBuffers - n) ∧
    (∀ wwl lvl lvl2 rest, wwl < lvl →
      waitWriteLoop wwl lvl ((IasCondResult.timeout, lvl2) :: rest)
        = some (if lvl2 > wwl then eIasRingBuffTimeOut else eIasRingBuffOk)) ∧
    (∀ wwl lvl lvl2 rest, wwl < lvl →
      waitWriteLoop wwl lvl ((IasCondResult.failed, lvl2) :: rest)
        = some eIasRingBuffCondWaitFailed) := by
  refine ⟨?_, ?_, ?_, ?_⟩
  · unfold waitWrite
    by_cases hvalid : n > s.mNumBuffers ∨ n = 0 ∨ t = 0
    · rw [if_pos hvalid]
      constructor
      · intro _
        tauto
      · intro _
        rfl
    · rw [if_neg hvalid]
      dsimp only
      constructor
      · intro hlp
        rcases waitWriteLoop_mem oracle s.mBufferLevel _ hlp with h | h | h <;> simp at h
      · intro hc
        exact absurd (by tauto) hvalid
  · intro hvalid
    unfold waitWrite
    rw [if_neg (by tauto)]
  · intro wwl lvl lvl2 rest hgt
    unfold waitWriteLoop
    rw [if_neg (by omega)]
  · intro wwl lvl lvl2 rest hgt
    unfold waitWriteLoop
    rw [if_neg (by omega)]

/-- C7 (witness): a valid call on the freshly initialized ring sets
writeWaitLevel to numBuffers - n. -/
theorem C7_waitWrite_witness :
    ¬ ((2 : Nat) = 0 ∨ 2 > (init 1 4 false initialState).2.mNumBuffers ∨ (5 : Nat) = 0) ∧
    (waitWrite 2 5 [] (init 1 4 false initialState).2).2.mWriteWaitLevel
      = (init 1 4 false initialState).2.mNumBuffers - 2 :=
  ⟨by decide,
    (C7_waitWrite (s := (init 1 4 false initialState).2) 2 5 []).2.1 (by decide)⟩

/-! ### Claim C8 -/

/-- C8 (counterexample): in the reachable state that already holds two
entries for id 5, a third addReader(5) succeeds, but removeReader(5)
clears all three entries, so the table is not restored to its prior
value. -/
theorem C8_counterexample :
    (∀ e ∈ c8DupTrace, legalEvent e = true) ∧
    (addReader 5 3 (runEvents (init 1 4 false initialState).2 c8DupTrace)).1
      = eIasRingBuffOk ∧
    ¬ ((removeReader 5 (addReader 5 3
          (runEvents (init 1 4 false initialState).2 c8DupTrace)).2).2.mReaders
        = (runEvents (init 1 4 false initialState).2 c8DupTrace).mReaders) := by
  decide

/-- C8 (amended): if no live entry already holds the id, a successful
addReader followed by removeReader restores the reader table exactly
(free slots are all-zero in invariant states, and removeReader rewrites
the slot addReader had claimed back to all-zero). -/
theorem C8_addRemove_roundTrip {s : RingBufferShm} (pid : Int) (now : Nat)
    (h : StateInv s) (hpid : 0 < pid)
    (hnodup : ∀ r ∈ s.mReaders, r.pid ≠ pid)
    (hok : (addReader pid now s).1 = eIasRingBuffOk) :
    (removeReader pid (addReader pid now s).2).2.mReaders = s.mReaders := by
  obtain ⟨-, -, -, -, -, -, -, -, -, -, -, -, h13⟩ := h
  have hple : ¬ (pid ≤ 0) := by omega
  unfold addReader at hok ⊢
  rw [if_neg hple] at hok ⊢
  cases haux : addReaderAux pid s.mReadOffset now s.mReaders with
  | none =>
    rw [haux] at hok
    simp at hok
  | some rs =>
    dsimp only
    unfold removeReader
    rw [if_neg hple]
    dsimp only
    exact addReaderAux_remove haux hnodup h13

/-- C8 (witness): the round trip on the freshly initialized (duplicate
free) table. -/
theorem C8_addRemove_roundTrip_witness :
    StateInv (init 1 4 false initialState).2 ∧
    (removeReader 5 (addReader 5 11 (init 1 4 false initialState).2).2).2.mReaders
      = (init 1 4 false initialState).2.mReaders :=
  ⟨by decide,
    C8_addRemove_roundTrip (s := (init 1 4 false initialState).2) 5 11
      (by decide) (by decide) (by decide) (by decide)⟩

/-! ### Claim C9 -/

/-- C9: endAccess(write) with no write borrow in flight is a silent
no-op: it returns Ok and the state, including the reader table, is
untouched, whatever count is passed. -/
theorem C9_endWrite_noBorrow_noop (s : RingBufferShm) (pid : Int) (off n now : Nat)
    (hw : s.mWriteInProgress = false) :
    endAccess .eIasRingBufferAccessWrite pid off n now s = (eIasRingBuffOk, s) := by
  unfold endAccess
  rw [if_neg (by simp [hw])]

/-- C9 (witness): the no-op evaluated on the initialized state with an
arbitrary large count. -/
theorem C9_endWrite_noBorrow_noop_witness :
    endAccess .eIasRingBufferAccessWrite 1 0 99 0 (init 1 4 false initialState).2
      = (eIasRingBuffOk, (init 1 4 false initialState).2) :=
  C9_endWrite_noBorrow_noop ((init 1 4 false initialState).2) 1 0 99 0 (by decide)

/-! ### Claim C10 -/

/-- C10: endAccess discards its offset argument (the source casts it to
void): two calls differing only in the offset argument produce the same
result and the same state, for every access mode, id and count; the
caller-claimed offset is never validated against the granted one. -/
theorem C10_endAccess_ignores_offset (access : IasRingBufferAccess) (pid : Int)
    (off1 off2 n now : Nat) (s : RingBufferShm) :
    endAccess access pid off1 n now s = endAccess access pid off2 n now s := rfl
